import Mathlib

/-!
Verification of the Rumi protocol backend (`src/rumi_protocol_backend`).

Shallow embedding conventions:
* `rust_decimal::Decimal` values (`Ratio`, `UsdIcp`) are modelled as exact
  rationals `ℚ`; `Decimal::MAX` becomes the constant `decimalMax`.
* `u64` token amounts (`ICP`, `ICUSD`, e8s base units) are modelled as `ℕ`.
* `Decimal::to_u64` on a nonnegative value truncates, hence the `⌊·⌋.toNat`
  in the mixed-unit operators below.
* Panicking paths (`unwrap`, `expect`, `assert!`, `ic_cdk::trap`) are modelled
  with `Option`/`Outcome.trap`.
* `BTreeMap<u64, Vault>` is modelled as a `List Vault` whose iteration order is
  the list order; where a claim depends on key order the theorems assume the
  list is sorted by `vault_id`.  The owner index (`principal_to_vault_ids`),
  liquidity-pool fields and the event log are omitted: no claim below mentions
  them.
* Asynchronous ledger calls are suspension points; their results are passed to
  the embedded operations as explicit `Except` parameters, and mint requests
  issued by an operation are collected in the `minted` component of `OpRun`.
-/

namespace Rumi

/-- rust_decimal `Decimal::MAX` as a rational (79228162514264337593543950335). -/
def decimalMax : ℚ := 79228162514264337593543950335

/-- numeric.rs `impl Mul<UsdIcp> for ICUSD`, `impl Mul<UsdIcp> for ICP` and
`impl Mul<Ratio> for Token<T>`: the amount is scaled down by 1e8, multiplied,
scaled back up and truncated to `u64`, i.e. `⌊a * r⌋`. -/
def tokMulDec (a : ℕ) (r : ℚ) : ℕ := (⌊(a : ℚ) * r⌋).toNat

/-- numeric.rs `impl Div<UsdIcp> for ICUSD` and `impl Div<Ratio> for ICUSD`:
`⌊a / r⌋` (the divisor is asserted nonzero in the source). -/
def tokDivDec (a : ℕ) (r : ℚ) : ℕ := (⌊(a : ℚ) / r⌋).toNat

/-- numeric.rs `impl Div<ICUSD> for ICUSD` and `impl Div<ICP> for ICP`:
the exact decimal quotient of the two integer amounts. -/
def tokDivTok (a b : ℕ) : ℚ := (a : ℚ) / (b : ℚ)

/-- numeric.rs `Ratio::pow`: `pow r 0 = 1`, otherwise a loop multiplying an
accumulator by `r`. -/
def ratioPow (r : ℚ) : ℕ → ℚ
  | 0 => 1
  | n + 1 => ratioPow r n * r

/-- vault.rs `struct Vault`.  `Principal` is modelled as `ℕ`. -/
structure Vault where
  owner : ℕ
  borrowed_icusd_amount : ℕ
  icp_margin_amount : ℕ
  vault_id : ℕ
deriving DecidableEq, Repr

/-- lib.rs: the anonymous principal. -/
def anonymousPrincipal : ℕ := 0

/-- state.rs `enum Mode`. -/
inductive Mode
  | ReadOnly
  | GeneralAvailability
  | Recovery
deriving DecidableEq, Repr

/-- lib.rs `MINIMUM_COLLATERAL_RATIO` (1.33). -/
def minCollateralRatio : ℚ := 133 / 100

/-- lib.rs `RECOVERY_COLLATERAL_RATIO` (1.5). -/
def recoveryCollateralRatio : ℚ := 3 / 2

/-- lib.rs `MIN_ICP_AMOUNT`. -/
def MIN_ICP_AMOUNT : ℕ := 100000

/-- lib.rs `MIN_ICUSD_AMOUNT`. -/
def MIN_ICUSD_AMOUNT : ℕ := 1000000000

/-- state.rs `Mode::is_available`. -/
def Mode.is_available : Mode → Bool
  | .ReadOnly => false
  | .GeneralAvailability => true
  | .Recovery => true

/-- state.rs `Mode::get_minimum_liquidation_collateral_ratio`. -/
def Mode.minLiquidationRatio : Mode → ℚ
  | .ReadOnly => minCollateralRatio
  | .GeneralAvailability => minCollateralRatio
  | .Recovery => recoveryCollateralRatio

/-- lib.rs `compute_collateral_ratio`: `Decimal::MAX` for a debt-free vault,
otherwise the exact ratio of the truncated margin value to the debt. -/
def computeCollateralRatio (v : Vault) (rate : ℚ) : ℚ :=
  if v.borrowed_icusd_amount = 0 then decimalMax
  else tokDivTok (tokMulDec v.icp_margin_amount rate) v.borrowed_icusd_amount

/-- state.rs `struct PendingMarginTransfer`. -/
structure PendingMarginTransfer where
  owner : ℕ
  margin : ℕ
deriving DecidableEq, Repr

/-- state.rs `struct State`, restricted to the fields the claims touch (the
owner index, liquidity pool maps, principals of external canisters and the
principal-keyed guard set are omitted; the operation-keyed guard tables of
guard.rs are modelled separately as `GuardState`). -/
structure State where
  vault_id_to_vaults : List Vault
  pending_margin_transfers : List (ℕ × PendingMarginTransfer)
  mode : Mode
  fee : ℚ
  total_collateral_ratio : ℚ
  current_base_rate : ℚ
  last_redemption_time : ℕ
  last_icp_rate : Option ℚ
  last_icp_timestamp : Option ℕ
  icp_ledger_fee : ℕ
  next_available_vault_id : ℕ
  is_fetching_rate : Bool
deriving DecidableEq, Repr

/-- `BTreeMap::get` on the vault map. -/
def lookupVault (vs : List Vault) (id : ℕ) : Option Vault :=
  vs.find? (fun v => v.vault_id == id)

/-- `BTreeMap::get_mut` followed by a field update. -/
def updateVault (vs : List Vault) (id : ℕ) (f : Vault → Vault) : List Vault :=
  vs.map (fun v => if v.vault_id = id then f v else v)

/-- `BTreeMap::remove` on the vault map. -/
def removeVault (vs : List Vault) (id : ℕ) : List Vault :=
  vs.filter (fun v => v.vault_id != id)

def totalBorrowed (vs : List Vault) : ℕ :=
  (vs.map (fun v => v.borrowed_icusd_amount)).sum

def totalMargin (vs : List Vault) : ℕ :=
  (vs.map (fun v => v.icp_margin_amount)).sum

/-- Replace the vault map, the only field most state.rs mutators touch
(notation helper for stating equations about them). -/
def State.setVaults (s : State) (vs : List Vault) : State :=
  { s with vault_id_to_vaults := vs }

/-- state.rs `State::total_borrowed_icusd_amount`. -/
def State.total_borrowed_icusd_amount (s : State) : ℕ :=
  totalBorrowed s.vault_id_to_vaults

/-- state.rs `State::total_icp_margin_amount`. -/
def State.total_icp_margin_amount (s : State) : ℕ :=
  totalMargin s.vault_id_to_vaults

/-- state.rs `State::compute_total_collateral_ratio`. -/
def State.compute_total_collateral_ratio (s : State) (rate : ℚ) : ℚ :=
  if s.total_borrowed_icusd_amount = 0 then decimalMax
  else tokDivTok (tokMulDec s.total_icp_margin_amount rate) s.total_borrowed_icusd_amount

/-- state.rs `State::update_total_collateral_ratio_and_mode`: the mode is first
set from the recovery threshold and then overwritten with `ReadOnly` whenever
the new total collateral ratio is below 1. -/
def State.update_total_collateral_ratio_and_mode (s : State) (rate : ℚ) : State :=
  let tcr := s.compute_total_collateral_ratio rate
  let m1 := if tcr < recoveryCollateralRatio then Mode.Recovery else Mode.GeneralAvailability
  let m2 := if tcr < 1 then Mode.ReadOnly else m1
  { s with total_collateral_ratio := tcr, mode := m2 }

/-- state.rs `State::get_borrowing_fee`. -/
def State.get_borrowing_fee (s : State) : ℚ :=
  match s.mode with
  | .Recovery => 0
  | .GeneralAvailability => s.fee
  | .ReadOnly => s.fee

/-- state.rs `compute_redemption_fee`: zero when nothing is borrowed, otherwise
the decayed base rate plus the redeemed proportion times 0.5, clamped into
`[0.005, 0.05]` by `.max(0.005).min(0.05)`. -/
def computeRedemptionFee (elapsed_hours : ℕ) (redeemed_amount : ℕ)
    (total_borrowed_icusd_amount : ℕ) (current_base_rate : ℚ) : ℚ :=
  if total_borrowed_icusd_amount = 0 then 0
  else
    let rate := current_base_rate * ratioPow (94 / 100) elapsed_hours
    let total_rate := rate + tokDivTok redeemed_amount total_borrowed_icusd_amount * (1 / 2)
    min (max total_rate (1 / 200)) (1 / 20)

/-- state.rs `State::get_redemption_fee` (`current_time` passed explicitly;
nanoseconds divided down to whole hours). -/
def State.get_redemption_fee (s : State) (redeemed_amount : ℕ) (now : ℕ) : ℚ :=
  computeRedemptionFee ((now - s.last_redemption_time) / 1000000000 / 3600)
    redeemed_amount s.total_borrowed_icusd_amount s.current_base_rate

/-- lib.rs `enum ProtocolError` (string payloads dropped). -/
inductive ProtocolError
  | TransferFromError (attempted_amount : ℕ)
  | TransferError
  | TemporarilyUnavailable
  | AlreadyProcessing
  | AnonymousCallerNotAllowed
  | CallerNotOwner
  | AmountTooLow (minimum_amount : ℕ)
  | GenericError
deriving DecidableEq, Repr

/-- state.rs `State::check_price_not_too_old` (`current_time` passed
explicitly; `u64::saturating_sub` is `ℕ` subtraction). -/
def State.check_price_not_too_old (s : State) (now : ℕ) : Except ProtocolError Unit :=
  match s.last_icp_timestamp with
  | none => .error .TemporarilyUnavailable
  | some t =>
      if 10 * 60 * 1000000000 < now - t then .error .TemporarilyUnavailable
      else .ok ()

/-! ### Guard layer (guard.rs, the principal+operation keyed variant) -/

/-- guard.rs `create_operation_key`: the key string concatenates the principal
text and the operation name; modelled as the pair (the principal text contains
no colon, so the concatenation is injective). -/
abbrev OpKey := ℕ × ℕ

/-- guard.rs `enum OperationState`. -/
inductive OperationState
  | InProgress
  | Completed
  | Failed
deriving DecidableEq, Repr

/-- guard.rs `enum GuardError`. -/
inductive GuardError
  | AlreadyProcessing
  | TooManyConcurrentRequests
  | StaleOperation
deriving DecidableEq, Repr

/-- guard.rs `MAX_CONCURRENT`. -/
def MAX_CONCURRENT : ℕ := 100

/-- guard.rs `GUARD_TIMEOUT_NANOS` (5 minutes). -/
def GUARD_TIMEOUT_NANOS : ℕ := 5 * 60 * 1000000000

/-- The guard tables referenced by guard.rs (`operation_guards` and the three
side maps).  The source's `State` in state.rs predates this variant and lacks
these fields; they are modelled as their own record. -/
structure GuardState where
  operation_guards : List OpKey
  operation_guard_timestamps : List (OpKey × ℕ)
  operation_states : List (OpKey × OperationState)
  operation_details : List (OpKey × OpKey)
deriving DecidableEq, Repr

/-- `BTreeMap::insert` on an association list: replace any previous binding. -/
def assocInsert {κ β : Type} [BEq κ] (l : List (κ × β)) (k : κ) (v : β) : List (κ × β) :=
  (k, v) :: l.filter (fun x => x.1 != k)

/-- guard.rs `GuardPrincipal::new`, reclamation pass: a key is collected as
stale when its timestamp is missing, its age exceeds `GUARD_TIMEOUT_NANOS`, or
its operation state is `Failed` (`u64::saturating_sub` is `ℕ` subtraction). -/
def staleGuardKey (gs : GuardState) (now : ℕ) (k : OpKey) : Bool :=
  match gs.operation_guard_timestamps.lookup k with
  | some t =>
      decide (GUARD_TIMEOUT_NANOS < now - t) ||
        (gs.operation_states.lookup k == some OperationState.Failed)
  | none => true

/-- Removal of one key from all four guard tables. -/
def removeGuardKey (gs : GuardState) (k : OpKey) : GuardState where
  operation_guards := gs.operation_guards.filter (fun x => x != k)
  operation_guard_timestamps := gs.operation_guard_timestamps.filter (fun x => x.1 != k)
  operation_states := gs.operation_states.filter (fun x => x.1 != k)
  operation_details := gs.operation_details.filter (fun x => x.1 != k)

/-- guard.rs `GuardPrincipal::new`, reclamation pass: drop every stale key. -/
def cleanupGuards (gs : GuardState) (now : ℕ) : GuardState :=
  (gs.operation_guards.filter (staleGuardKey gs now)).foldl removeGuardKey gs

/-- guard.rs `GuardPrincipal::new`, final insertion into all four tables. -/
def insertGuard (gs : GuardState) (k : OpKey) (now : ℕ) : GuardState where
  operation_guards := gs.operation_guards.insert k
  operation_guard_timestamps := assocInsert gs.operation_guard_timestamps k now
  operation_states := assocInsert gs.operation_states k OperationState.InProgress
  operation_details := assocInsert gs.operation_details k k

/-- guard.rs `GuardPrincipal::new`: reclamation pass; `AlreadyProcessing` for a
same-key guard not older than half the timeout (in whole seconds), reclamation
of an older one; then the `MAX_CONCURRENT` cap and the insertion. -/
def guardPrincipalNew (gs0 : GuardState) (now : ℕ) (principal operation_name : ℕ) :
    Except GuardError GuardState :=
  let operation_key : OpKey := (principal, operation_name)
  let gs := cleanupGuards gs0 now
  if operation_key ∈ gs.operation_guards then
    let timestamp := (gs.operation_guard_timestamps.lookup operation_key).getD 0
    let age_seconds := (now - timestamp) / 1000000000
    if GUARD_TIMEOUT_NANOS / 1000000000 / 2 < age_seconds then
      let gs1 := removeGuardKey gs operation_key
      if MAX_CONCURRENT ≤ gs1.operation_guards.length then .error .TooManyConcurrentRequests
      else .ok (insertGuard gs1 operation_key now)
    else .error .AlreadyProcessing
  else
    if MAX_CONCURRENT ≤ gs.operation_guards.length then .error .TooManyConcurrentRequests
    else .ok (insertGuard gs operation_key now)

/-! ### Liquidation and redistribution (state.rs) -/

/-- state.rs `State::liquidate_vault`: partial liquidation exactly when the
mode is `Recovery` and the vault's own collateralization is strictly above
`MINIMUM_COLLATERAL_RATIO`, otherwise full removal.  `none` models the
`expect`/`assert!` panics. -/
def State.liquidate_vault (s : State) (vault_id : ℕ) (mode : Mode) (rate : ℚ) : Option State :=
  match lookupVault s.vault_id_to_vaults vault_id with
  | none => none
  | some vault =>
    let vault_collateral_ratio := computeCollateralRatio vault rate
    if mode = Mode.Recovery ∧ minCollateralRatio < vault_collateral_ratio then
      let partial_margin :=
        tokDivDec (tokMulDec vault.borrowed_icusd_amount minCollateralRatio) rate
      if partial_margin ≤ vault.icp_margin_amount then
        let vs1 := updateVault s.vault_id_to_vaults vault_id (fun v =>
          { v with borrowed_icusd_amount := 0,
                   icp_margin_amount := v.icp_margin_amount - partial_margin })
        some { s with vault_id_to_vaults := vs1 }
      else none
    else
      some { s with vault_id_to_vaults := removeVault s.vault_id_to_vaults vault_id }

/-- state.rs `struct DistributeToVaultEntry`. -/
structure DistributeToVaultEntry where
  vault_id : ℕ
  icp_share_amount : ℕ
  icusd_share_amount : ℕ
deriving DecidableEq, Repr

/-- state.rs `distribute_across_vaults`: each non-target vault receives the
truncated pro-rata share of the target's margin and debt; the integer rounding
residue is added to the first entry.  `none` models the `assert!`s and the
`Token` subtraction underflow. -/
def distributeAcrossVaults (vaults : List Vault) (target_vault : Vault) :
    Option (List DistributeToVaultEntry) :=
  if vaults.isEmpty then none
  else
    let survivors := vaults.filter (fun v => v.vault_id != target_vault.vault_id)
    let total_icp_margin := totalMargin survivors
    if total_icp_margin = 0 then none
    else
      let result := survivors.map (fun v =>
        let share := tokDivTok v.icp_margin_amount total_icp_margin
        { vault_id := v.vault_id
          icp_share_amount := tokMulDec target_vault.icp_margin_amount share
          icusd_share_amount := tokMulDec target_vault.borrowed_icusd_amount share })
      let distributed_icp := (result.map (fun e => e.icp_share_amount)).sum
      let distributed_icusd := (result.map (fun e => e.icusd_share_amount)).sum
      match result with
      | [] => some []
      | e :: rest =>
          if distributed_icusd ≤ target_vault.borrowed_icusd_amount ∧
              distributed_icp ≤ target_vault.icp_margin_amount then
            some ({ e with
              icusd_share_amount :=
                e.icusd_share_amount + (target_vault.borrowed_icusd_amount - distributed_icusd),
              icp_share_amount :=
                e.icp_share_amount + (target_vault.icp_margin_amount - distributed_icp) } :: rest)
          else none

/-- state.rs `State::redistribute_vault`, entry-application loop (`Occupied`
adds the shares, `Vacant` panics). -/
def applyDistributeEntries : List Vault → List DistributeToVaultEntry → Option (List Vault)
  | vs, [] => some vs
  | vs, e :: es =>
    match lookupVault vs e.vault_id with
    | none => none
    | some _ =>
        applyDistributeEntries
          (updateVault vs e.vault_id (fun v =>
            { v with icp_margin_amount := v.icp_margin_amount + e.icp_share_amount,
                     borrowed_icusd_amount := v.borrowed_icusd_amount + e.icusd_share_amount }))
          es

/-- state.rs `State::redistribute_vault` (owner index omitted). -/
def State.redistribute_vault (s : State) (vault_id : ℕ) : Option State :=
  match lookupVault s.vault_id_to_vaults vault_id with
  | none => none
  | some vault =>
    match distributeAcrossVaults s.vault_id_to_vaults vault with
    | none => none
    | some entries =>
      match applyDistributeEntries s.vault_id_to_vaults entries with
      | none => none
      | some vs1 => some { s with vault_id_to_vaults := removeVault vs1 vault_id }

/-! ### Redemption (state.rs) -/

/-- Lexicographic order on (collateralization ratio, vault id): the iteration
order of the `BTreeSet<(Ratio, VaultId)>` in `State::redeem_on_vaults`. -/
def crLe (a b : ℚ × ℕ) : Prop := a.1 < b.1 ∨ (a.1 = b.1 ∧ a.2 ≤ b.2)

instance : DecidableRel crLe := fun a b => by unfold crLe; infer_instance

instance : IsTotal (ℚ × ℕ) crLe where
  total a b := by
    rcases lt_trichotomy a.1 b.1 with h | h | h
    · exact Or.inl (Or.inl h)
    · rcases le_total a.2 b.2 with h2 | h2
      · exact Or.inl (Or.inr ⟨h, h2⟩)
      · exact Or.inr (Or.inr ⟨h.symm, h2⟩)
    · exact Or.inr (Or.inl h)

instance : IsTrans (ℚ × ℕ) crLe where
  trans a b c hab hbc := by
    rcases hab with h | ⟨he, h2⟩
    · rcases hbc with h' | ⟨he', _⟩
      · exact Or.inl (h.trans h')
      · exact Or.inl (lt_of_lt_of_le h (le_of_eq he'))
    · rcases hbc with h' | ⟨he', h2'⟩
      · exact Or.inl (lt_of_le_of_lt (le_of_eq he) h')
      · exact Or.inr ⟨he.trans he', h2.trans h2'⟩

/-- state.rs `State::redeem_on_vaults`: the ascending id list of the
`BTreeSet<(Ratio, VaultId)>` built from all vaults. -/
def redeemOrder (vs : List Vault) (rate : ℚ) : List ℕ :=
  (List.insertionSort crLe
    (vs.map (fun v => (computeCollateralRatio v rate, v.vault_id)))).map Prod.snd

/-- state.rs `State::deduct_amount_from_vault` (the two `assert!`s are the
`none` branches). -/
def deductAmountFromVault (vs : List Vault) (icp_amount_to_deduct icusd_amount_to_deduct : ℕ)
    (vault_id : ℕ) : Option (List Vault) :=
  match lookupVault vs vault_id with
  | none => none
  | some vault =>
    if icusd_amount_to_deduct ≤ vault.borrowed_icusd_amount then
      if icp_amount_to_deduct ≤ vault.icp_margin_amount then
        some (updateVault vs vault_id (fun v =>
          { v with
            borrowed_icusd_amount := v.borrowed_icusd_amount - icusd_amount_to_deduct,
            icp_margin_amount := v.icp_margin_amount - icp_amount_to_deduct }))
      else none
    else none

/-- state.rs `State::redeem_on_vaults`, main loop over the sorted vault ids.
Returns the final vault list together with the remaining unconverted amount,
which the source's final `debug_assert!` requires to be zero. -/
def redeemLoop (rate : ℚ) : List ℕ → ℕ → List Vault → Option (List Vault × ℕ)
  | [], remaining, vs => some (vs, remaining)
  | vault_id :: rest, remaining, vs =>
    if remaining = 0 then some (vs, 0)
    else
      match lookupVault vs vault_id with
      | none => none
      | some vault =>
        if remaining ≤ vault.borrowed_icusd_amount then
          (deductAmountFromVault vs (tokDivDec remaining rate) remaining vault_id).map
            (fun vs1 => (vs1, 0))
        else
          match deductAmountFromVault vs
              (tokDivDec vault.borrowed_icusd_amount rate) vault.borrowed_icusd_amount
              vault_id with
          | none => none
          | some vs1 => redeemLoop rate rest (remaining - vault.borrowed_icusd_amount) vs1

/-- state.rs `State::redeem_on_vaults`. -/
def State.redeem_on_vaults (s : State) (icusd_amount : ℕ) (current_icp_rate : ℚ) :
    Option (State × ℕ) :=
  (redeemLoop current_icp_rate (redeemOrder s.vault_id_to_vaults current_icp_rate)
      icusd_amount s.vault_id_to_vaults).map
    (fun p => ({ s with vault_id_to_vaults := p.1 }, p.2))

/-! ### Liquidation sweep and oracle refresh (lib.rs, xrc.rs) -/

/-- lib.rs `check_vaults`: collect the vaults below the mode's minimum
liquidation ratio at the last rate (default 1.0 when none), then liquidate
each (`record_liquidate_vault` lives in event.rs, which is not under src/;
modelled from the spec as event recording plus `State::liquidate_vault`). -/
def checkVaults (s : State) : Option State :=
  let last_icp_rate := s.last_icp_rate.getD 1
  let unhealthy := s.vault_id_to_vaults.filter (fun v =>
    decide (computeCollateralRatio v last_icp_rate < s.mode.minLiquidationRatio))
  unhealthy.foldlM (fun acc v => acc.liquidate_vault v.vault_id acc.mode last_icp_rate) s

/-- ic_xrc_types `ExchangeRate` restricted to the fields xrc.rs reads. -/
structure ExchangeRateResult where
  rate : ℕ
  decimals : ℕ
  timestamp : ℕ
deriving DecidableEq, Repr

/-- xrc.rs `fetch_icp_rate`, handling of the XRC call result (`none` models
both the transport error and `GetExchangeRateResult::Err`, which only log):
a fetched rate below the 0.01 dust floor forces `ReadOnly`, then the stored
rate and timestamp are updated when the fetched timestamp is newer. -/
def fetchApplyResult (s0 : State) (result : Option ExchangeRateResult) : State :=
  match result with
  | some er =>
    let rate : ℚ := (er.rate : ℚ) / ((10 : ℚ) ^ er.decimals)
    let s1 := if rate < 1 / 100 then { s0 with mode := Mode.ReadOnly } else s0
    match s1.last_icp_timestamp with
    | some t =>
      if t < er.timestamp * 1000000000 then
        { s1 with last_icp_rate := some rate,
                  last_icp_timestamp := some (er.timestamp * 1000000000) }
      else s1
    | none =>
      { s1 with last_icp_rate := some rate,
                last_icp_timestamp := some (er.timestamp * 1000000000) }
  | none => s0

/-- xrc.rs `fetch_icp_rate`, tail: when a last rate exists, run
`update_total_collateral_ratio_and_mode` on it, then the liquidation sweep
unless the mode is `ReadOnly`. -/
def fetchFinish (s : State) : Option State :=
  let s2 :=
    match s.last_icp_rate with
    | some r => s.update_total_collateral_ratio_and_mode r
    | none => s
  if s2.mode ≠ Mode.ReadOnly then checkVaults s2 else some s2

/-- xrc.rs `fetch_icp_rate`.  The `FetchXrcGuard` makes the whole call a no-op
when a fetch is already running. -/
def fetchIcpRate (s0 : State) (result : Option ExchangeRateResult) : Option State :=
  if s0.is_fetching_rate then some s0
  else fetchFinish (fetchApplyResult s0 result)

/-! ### State mutators used by the vault operations (state.rs) -/

/-- state.rs `State::open_vault` (owner index omitted).  Fresh vault ids are
strictly monotone, so the `BTreeMap::insert` appends at the end of the key
order. -/
def State.state_open_vault (s : State) (vault : Vault) : State :=
  { s with vault_id_to_vaults := s.vault_id_to_vaults ++ [vault] }

/-- state.rs `State::close_vault` (owner index omitted; `none` models the
`ic_cdk::trap` on an unknown vault): remove the vault and enqueue its whole
margin as a pending transfer to the owner. -/
def State.state_close_vault (s : State) (vault_id : ℕ) : Option State :=
  match lookupVault s.vault_id_to_vaults vault_id with
  | none => none
  | some vault =>
    some { s with
      vault_id_to_vaults := removeVault s.vault_id_to_vaults vault_id,
      pending_margin_transfers :=
        assocInsert s.pending_margin_transfers vault_id
          ⟨vault.owner, vault.icp_margin_amount⟩ }

/-- state.rs `State::borrow_from_vault` (`none` models the trap on an unknown
vault). -/
def State.state_borrow_from_vault (s : State) (vault_id borrowed_amount : ℕ) : Option State :=
  match lookupVault s.vault_id_to_vaults vault_id with
  | none => none
  | some _ =>
    let vs1 := updateVault s.vault_id_to_vaults vault_id (fun v =>
      { v with borrowed_icusd_amount := v.borrowed_icusd_amount + borrowed_amount })
    some { s with vault_id_to_vaults := vs1 }

/-- state.rs `State::add_margin_to_vault` (`none` models the trap on an
unknown vault). -/
def State.state_add_margin_to_vault (s : State) (vault_id add_margin : ℕ) : Option State :=
  match lookupVault s.vault_id_to_vaults vault_id with
  | none => none
  | some _ =>
    let vs1 := updateVault s.vault_id_to_vaults vault_id (fun v =>
      { v with icp_margin_amount := v.icp_margin_amount + add_margin })
    some { s with vault_id_to_vaults := vs1 }

/-- state.rs `State::repay_to_vault` (`none` models the trap on an unknown
vault and the `assert!` that the repayment does not exceed the debt). -/
def State.state_repay_to_vault (s : State) (vault_id repayed_amount : ℕ) : Option State :=
  match lookupVault s.vault_id_to_vaults vault_id with
  | none => none
  | some vault =>
    if repayed_amount ≤ vault.borrowed_icusd_amount then
      let vs1 := updateVault s.vault_id_to_vaults vault_id (fun v =>
        { v with borrowed_icusd_amount := v.borrowed_icusd_amount - repayed_amount })
      some { s with vault_id_to_vaults := vs1 }
    else none

/-! ### User-facing vault operations (vault.rs) -/

/-- Result of an embedded canister operation; `trap` models
`panic!`/`unwrap`/`expect`/`ic_cdk::trap`. -/
inductive Outcome (α : Type)
  | trap
  | err (e : ProtocolError)
  | ok (a : α)
deriving DecidableEq, Repr

/-- One run of a vault.rs operation: final outcome, final state and the list
of `mint_icusd` requests `(amount, to)` issued along the way. -/
structure OpRun (α : Type) where
  outcome : Outcome α
  state : State
  minted : List (ℕ × ℕ)
deriving DecidableEq, Repr

/-- lib.rs `impl From<GuardError> for ProtocolError` (the source match does
not name `StaleOperation`; it is mapped with the `TooManyConcurrentRequests`
arm here, and no theorem depends on it). -/
def protocolErrorOfGuard : GuardError → ProtocolError
  | .AlreadyProcessing => .AlreadyProcessing
  | _ => .TemporarilyUnavailable

/-- vault.rs `struct VaultArg`. -/
structure VaultArg where
  vault_id : ℕ
  amount : ℕ
deriving DecidableEq, Repr

/-- lib.rs `struct SuccessWithFee`. -/
structure SuccessWithFee where
  block_index : ℕ
  fee_amount_paid : ℕ
deriving DecidableEq, Repr

/-- vault.rs `struct OpenVaultSuccess`. -/
structure OpenVaultSuccess where
  vault_id : ℕ
  block_index : ℕ
deriving DecidableEq, Repr

/-- event.rs `record_redemption_on_vaults` is not under src/.  Modelled from
the spec: append the `Redeem` event and enqueue the outbound transfer
(omitted), and apply the redemption to the vault set via
`State::redeem_on_vaults`; the leftover is ignored as in the source's release
build (its `debug_assert!` is the subject of C7). -/
def recordRedemptionOnVaults (s : State) (net_amount : ℕ) (rate : ℚ) : Option State :=
  (s.redeem_on_vaults net_amount rate).map Prod.fst

/-- vault.rs `redeem_icp`, mutation step: store the new base rate and stamp
the redemption time. -/
def redeemStateUpdate (s : State) (base_fee : ℚ) (now : ℕ) : State :=
  { s with current_base_rate := base_fee, last_redemption_time := now }

/-- vault.rs `redeem_icp`.  `guard` is the `GuardPrincipal::new` result and
`transfer_from_result` the icusd `transfer_from` outcome; `now` is
`ic_cdk::api::time()`. -/
def redeem_icp (s : State) (icusd_amount now : ℕ)
    (guard : Except GuardError Unit) (transfer_from_result : Except Unit ℕ) :
    OpRun SuccessWithFee :=
  match guard with
  | .error g => ⟨.err (protocolErrorOfGuard g), s, []⟩
  | .ok _ =>
    if icusd_amount < MIN_ICUSD_AMOUNT then
      ⟨.err (.AmountTooLow MIN_ICUSD_AMOUNT), s, []⟩
    else
      match s.last_icp_rate with
      | none => ⟨.trap, s, []⟩
      | some current_icp_rate =>
        match transfer_from_result with
        | .error _ => ⟨.err (.TransferFromError icusd_amount), s, []⟩
        | .ok block_index =>
          let base_fee := s.get_redemption_fee icusd_amount now
          let s1 := redeemStateUpdate s base_fee now
          let fee_amount := tokMulDec icusd_amount base_fee
          match recordRedemptionOnVaults s1 (icusd_amount - fee_amount) current_icp_rate with
          | none => ⟨.trap, s1, []⟩
          | some s2 => ⟨.ok ⟨block_index, fee_amount⟩, s2, []⟩

/-- vault.rs `open_vault` (`record_open_vault` of the missing event.rs is
modelled from the spec as `State::open_vault` plus the id increment).  The
`transfer_from_result` error payload is `some expected_fee` for
`TransferFromError::BadFee`, which updates the cached ledger fee. -/
def open_vault (s : State) (caller icp_margin : ℕ)
    (guard : Except GuardError Unit) (transfer_from_result : Except (Option ℕ) ℕ) :
    OpRun OpenVaultSuccess :=
  match guard with
  | .error g => ⟨.err (protocolErrorOfGuard g), s, []⟩
  | .ok _ =>
    if icp_margin < MIN_ICP_AMOUNT then ⟨.err (.AmountTooLow MIN_ICP_AMOUNT), s, []⟩
    else
      match transfer_from_result with
      | .ok block_index =>
        let vault_id := s.next_available_vault_id
        let s1 := { s with next_available_vault_id := vault_id + 1 }
        let s2 := s1.state_open_vault
          { owner := caller, borrowed_icusd_amount := 0,
            icp_margin_amount := icp_margin, vault_id := vault_id }
        ⟨.ok ⟨vault_id, block_index⟩, s2, []⟩
      | .error e =>
        let s1 :=
          match e with
          | some expected_fee => { s with icp_ledger_fee := expected_fee }
          | none => s
        ⟨.err (.TransferFromError icp_margin), s1, []⟩

/-- event.rs `record_borrow_from_vault` is not under src/.  Modelled from the
spec: append the `Borrow` event (omitted) and increase the vault's debt by the
full borrowed amount via `State::borrow_from_vault`. -/
def recordBorrowFromVault (s : State) (vault_id amount : ℕ) : Option State :=
  s.state_borrow_from_vault vault_id amount

/-- vault.rs `borrow_from_vault`.  Note the order: minimum-amount check, then
the unguarded `unwrap` of the vault lookup and the `expect` of the rate, then
ownership, the borrowing-capacity pre-check, and the mint of
`amount - fee`. -/
def borrow_from_vault (s : State) (caller : ℕ) (arg : VaultArg)
    (guard : Except GuardError Unit) (mint_result : Except Unit ℕ) :
    OpRun SuccessWithFee :=
  match guard with
  | .error g => ⟨.err (protocolErrorOfGuard g), s, []⟩
  | .ok _ =>
    if arg.amount < MIN_ICUSD_AMOUNT then ⟨.err (.AmountTooLow MIN_ICUSD_AMOUNT), s, []⟩
    else
      match lookupVault s.vault_id_to_vaults arg.vault_id with
      | none => ⟨.trap, s, []⟩
      | some vault =>
        match s.last_icp_rate with
        | none => ⟨.trap, s, []⟩
        | some icp_rate =>
          if caller ≠ vault.owner then ⟨.err .CallerNotOwner, s, []⟩
          else
            let max_borrowable_amount :=
              tokDivDec (tokMulDec vault.icp_margin_amount icp_rate) s.mode.minLiquidationRatio
            if max_borrowable_amount < vault.borrowed_icusd_amount + arg.amount then
              ⟨.err .GenericError, s, []⟩
            else
              let fee := tokMulDec arg.amount s.get_borrowing_fee
              match mint_result with
              | .ok block_index =>
                match recordBorrowFromVault s arg.vault_id arg.amount with
                | none => ⟨.trap, s, [(arg.amount - fee, caller)]⟩
                | some s1 => ⟨.ok ⟨block_index, fee⟩, s1, [(arg.amount - fee, caller)]⟩
              | .error _ => ⟨.err .TransferError, s, [(arg.amount - fee, caller)]⟩

/-- event.rs `record_repayed_to_vault` is not under src/.  Modelled from the
spec: `Repay` event (omitted) plus `State::repay_to_vault`. -/
def recordRepayedToVault (s : State) (vault_id amount : ℕ) : Option State :=
  s.state_repay_to_vault vault_id amount

/-- vault.rs `repay_to_vault`: the vault lookup `.unwrap()` precedes the
ownership and minimum-amount checks. -/
def repay_to_vault (s : State) (caller : ℕ) (arg : VaultArg)
    (guard : Except GuardError Unit) (transfer_from_result : Except Unit ℕ) : OpRun ℕ :=
  match guard with
  | .error g => ⟨.err (protocolErrorOfGuard g), s, []⟩
  | .ok _ =>
    match lookupVault s.vault_id_to_vaults arg.vault_id with
    | none => ⟨.trap, s, []⟩
    | some vault =>
      if caller ≠ vault.owner then ⟨.err .CallerNotOwner, s, []⟩
      else if arg.amount < MIN_ICUSD_AMOUNT then ⟨.err (.AmountTooLow MIN_ICUSD_AMOUNT), s, []⟩
      else if vault.borrowed_icusd_amount < arg.amount then ⟨.err .GenericError, s, []⟩
      else
        match transfer_from_result with
        | .ok block_index =>
          match recordRepayedToVault s arg.vault_id arg.amount with
          | none => ⟨.trap, s, []⟩
          | some s1 => ⟨.ok block_index, s1, []⟩
        | .error _ => ⟨.err (.TransferFromError arg.amount), s, []⟩

/-- event.rs `record_add_margin_to_vault` is not under src/.  Modelled from
the spec: `AddMargin` event (omitted) plus `State::add_margin_to_vault`. -/
def recordAddMarginToVault (s : State) (vault_id amount : ℕ) : Option State :=
  s.state_add_margin_to_vault vault_id amount

/-- vault.rs `add_margin_to_vault`: the minimum-amount check precedes the
vault lookup `.unwrap()`; `BadFee` updates the cached ledger fee. -/
def add_margin_to_vault (s : State) (caller : ℕ) (arg : VaultArg)
    (guard : Except GuardError Unit) (transfer_from_result : Except (Option ℕ) ℕ) : OpRun ℕ :=
  match guard with
  | .error g => ⟨.err (protocolErrorOfGuard g), s, []⟩
  | .ok _ =>
    if arg.amount < MIN_ICP_AMOUNT then ⟨.err (.AmountTooLow MIN_ICP_AMOUNT), s, []⟩
    else
      match lookupVault s.vault_id_to_vaults arg.vault_id with
      | none => ⟨.trap, s, []⟩
      | some vault =>
        if caller ≠ vault.owner then ⟨.err .CallerNotOwner, s, []⟩
        else
          match transfer_from_result with
          | .ok block_index =>
            match recordAddMarginToVault s arg.vault_id arg.amount with
            | none => ⟨.trap, s, []⟩
            | some s1 => ⟨.ok block_index, s1, []⟩
          | .error e =>
            let s1 :=
              match e with
              | some expected_fee => { s with icp_ledger_fee := expected_fee }
              | none => s
            ⟨.err (.TransferFromError arg.amount), s1, []⟩

/-- event.rs `record_close_vault` is not under src/.  Modelled from the spec:
`CloseVault` event (omitted) plus `State::close_vault`. -/
def recordCloseVault (s : State) (vault_id : ℕ) : Option State :=
  s.state_close_vault vault_id

/-- vault.rs `close_vault`: the vault lookup `.unwrap()` precedes the
ownership check; a zero-debt vault closes without a ledger call, otherwise the
whole debt is pulled from the caller first. -/
def close_vault (s : State) (caller vault_id : ℕ)
    (guard : Except GuardError Unit) (transfer_from_result : Except Unit ℕ) :
    OpRun (Option ℕ) :=
  match guard with
  | .error g => ⟨.err (protocolErrorOfGuard g), s, []⟩
  | .ok _ =>
    match lookupVault s.vault_id_to_vaults vault_id with
    | none => ⟨.trap, s, []⟩
    | some vault =>
      if caller ≠ vault.owner then ⟨.err .CallerNotOwner, s, []⟩
      else
        let amount_to_pay_off := vault.borrowed_icusd_amount
        if amount_to_pay_off = 0 then
          match recordCloseVault s vault_id with
          | none => ⟨.trap, s, []⟩
          | some s1 => ⟨.ok none, s1, []⟩
        else
          match transfer_from_result with
          | .ok block_index =>
            match recordCloseVault s vault_id with
            | none => ⟨.trap, s, []⟩
            | some s1 => ⟨.ok (some block_index), s1, []⟩
          | .error _ => ⟨.err (.TransferFromError amount_to_pay_off), s, []⟩

/-! ### Operation prologue (modelled from the spec) -/

/-- The protocol's user-facing operations, for the shared prologue. -/
inductive VaultOp
  | openOp
  | borrowOp
  | repayOp
  | addMarginOp
  | closeOp
  | redeemOp
deriving DecidableEq, Repr

/-- Modelled from the spec: the RPC endpoint shim (`main.rs`) that wraps the
vault.rs operations is not under src/.  Section 4.6's shared prologue is
(a) reject anonymous callers, (b) guard acquisition (carried by the `guard`
parameters of the operations), (c) `mode.is_operative()`, where `ReadOnly`
rejects everything except `repay_to_vault` and a zero-debt `close_vault`, and
(d) `State::check_price_not_too_old` (taken from src/). -/
def opPrologue (s : State) (op : VaultOp) (caller now : ℕ)
    (close_debt_is_zero : Bool) : Option ProtocolError :=
  if caller = anonymousPrincipal then some .AnonymousCallerNotAllowed
  else if ¬s.mode.is_available ∧
      ¬(op = .repayOp ∨ (op = .closeOp ∧ close_debt_is_zero)) then
    some .TemporarilyUnavailable
  else
    match s.check_price_not_too_old now with
    | .error e => some e
    | .ok _ => none

/-- Modelled from the spec: an endpoint runs the prologue and invokes the
operation body only when every prologue check passes. -/
def runVaultOp {α : Type} (s : State) (op : VaultOp) (caller now : ℕ)
    (close_debt_is_zero : Bool) (body : State → OpRun α) : OpRun α :=
  match opPrologue s op caller now close_debt_is_zero with
  | some e => ⟨.err e, s, []⟩
  | none => body s

/-! ### Specification-side definitions for the refinement claims

The following definitions are written from the words of the spec and of the
claims (not from the source); the theorems below compare the source embedding
against them. -/

/-- Distinctness of the vault ids, the `BTreeMap` key invariant. -/
def idsNodup (vs : List Vault) : Prop :=
  (vs.map (fun v => v.vault_id)).Nodup

/-- The debt stored under a vault id (0 when absent). -/
def debtAt (vs : List Vault) (id : ℕ) : ℕ :=
  ((lookupVault vs id).map (fun v => v.borrowed_icusd_amount)).getD 0

/-- The collateralization ratio of the vault stored under an id (0 when
absent). -/
def crAt (vs : List Vault) (rate : ℚ) (id : ℕ) : ℚ :=
  ((lookupVault vs id).map (fun v => computeCollateralRatio v rate)).getD 0

/-- The margin stored under a vault id (0 when absent). -/
def marginAt (vs : List Vault) (id : ℕ) : ℕ :=
  ((lookupVault vs id).map (fun v => v.icp_margin_amount)).getD 0

/-- Specification-side redemption takes (claim C3): walking the `(id, debt)`
pairs in redemption order, each vault contributes `take = min remaining debt`
and the remaining amount drops by the take. -/
def specRedeemTakes : ℕ → List (ℕ × ℕ) → List (ℕ × ℕ)
  | _, [] => []
  | remaining, (id, d) :: rest =>
      (id, min remaining d) :: specRedeemTakes (remaining - min remaining d) rest

/-- Specification-side application of redemption takes (claim C3): a touched
vault's debt drops by its take and its collateral by `take / price`. -/
def specApplyRedeem (rate : ℚ) (takes : List (ℕ × ℕ)) (vs : List Vault) : List Vault :=
  vs.map (fun v =>
    match takes.find? (fun t => t.1 == v.vault_id) with
    | some t =>
        { v with borrowed_icusd_amount := v.borrowed_icusd_amount - t.2,
                 icp_margin_amount := v.icp_margin_amount - tokDivDec t.2 rate }
    | none => v)

/-- Specification-side redistribution (claim C5): survivor `i` with share
`s_i = collateral_i / Σ collateral_j` gains `s_i × target.collateral` and
`s_i × target.debt` (truncated), and the integer rounding residuals go to the
first survivor in iteration order. -/
def specRedistribute (survivors : List Vault) (target : Vault) : List Vault :=
  let total := totalMargin survivors
  let shareC := fun (v : Vault) =>
    tokMulDec target.icp_margin_amount (tokDivTok v.icp_margin_amount total)
  let shareD := fun (v : Vault) =>
    tokMulDec target.borrowed_icusd_amount (tokDivTok v.icp_margin_amount total)
  let withShares := survivors.map (fun v =>
    { v with icp_margin_amount := v.icp_margin_amount + shareC v,
             borrowed_icusd_amount := v.borrowed_icusd_amount + shareD v })
  match withShares with
  | [] => []
  | w :: rest =>
      { w with
        icp_margin_amount :=
          w.icp_margin_amount + (target.icp_margin_amount - (survivors.map shareC).sum),
        borrowed_icusd_amount :=
          w.borrowed_icusd_amount +
            (target.borrowed_icusd_amount - (survivors.map shareD).sum) } :: rest

/-! ### Concrete states for counterexamples and witnesses -/

/-- One vault with collateralization exactly `MINIMUM_COLLATERAL_RATIO` at
rate 1.33 (margin 1 ICP, debt 1 ICUSD in e8s). -/
def vaultAtMcr : Vault := ⟨1, 100000000, 100000000, 0⟩

def stateC2 : State :=
  ⟨[vaultAtMcr], [], Mode.Recovery, 1 / 200, 1, 0, 0, some (133 / 100), some 0, 10, 1, false⟩

/-- Empty-vault state with a fresh price, for C4/C10 style runs. -/
def stateEmpty : State :=
  ⟨[], [], Mode.GeneralAvailability, 1 / 200, 1, 0, 0, none, none, 10, 0, false⟩

/-- The state reached from `stateEmpty` by a refresh that fetched a rate of
0.005 at timestamp 1 (mode ends `GeneralAvailability`, not `ReadOnly`). -/
def stateC4After : State :=
  ⟨[], [], Mode.GeneralAvailability, 1 / 200, decimalMax, 0, 0, some (1 / 200),
    some 1000000000, 10, 0, false⟩

/-- State with no outstanding debt but a known rate: the C7 failing input. -/
def stateC7 : State :=
  ⟨[], [], Mode.GeneralAvailability, 1 / 200, 1, 7 / 100, 0, some 5, some 0, 10, 0, false⟩

/-- One underwater vault (debt 1000, margin 1): the C3 counterexample input. -/
def stateC3 : State :=
  ⟨[⟨1, 1000, 1, 0⟩], [], Mode.GeneralAvailability, 1 / 200, 1, 0, 0, some 1, some 0, 10, 1,
    false⟩

/-- Two healthy vaults plus a target, mirroring the state.rs unit test, for
the C5 witness. -/
def stateC5 : State :=
  ⟨[⟨1, 300000, 500000, 1⟩, ⟨2, 200000, 300000, 2⟩, ⟨3, 400000, 700000, 3⟩], [],
    Mode.GeneralAvailability, 1 / 200, 1, 0, 0, some 1, some 0, 10, 4, false⟩

/-- One vault with debt 10000 ICUSD and margin 2 ICP at price 20000 (spec
scenario 4), for the C3/C6 witnesses. -/
def stateScenario4 : State :=
  ⟨[⟨1, 1000000000000, 200000000, 0⟩], [], Mode.GeneralAvailability, 1 / 200, 1, 0, 0,
    some 20000, some 0, 10, 1, false⟩

/-- Guard tables with no entries. -/
def guardStateEmpty : GuardState := ⟨[], [], [], []⟩

/-- A one-minute-old guard marked `Failed` under key (1,2). -/
def guardStateFailed : GuardState :=
  ⟨[(1, 2)], [((1, 2), 0)], [((1, 2), OperationState.Failed)], [((1, 2), (1, 2))]⟩

/-- A guard under key (1,2) born at 0, queried at 150.5 s, still
`InProgress`. -/
def guardStateInProgress : GuardState :=
  ⟨[(1, 2)], [((1, 2), 0)], [((1, 2), OperationState.InProgress)], [((1, 2), (1, 2))]⟩

/-- A state whose single vault is owned by principal 7, for witnesses that
exercise the vault operations. -/
def stateOwned : State :=
  ⟨[⟨7, 0, 100000000, 0⟩], [], Mode.GeneralAvailability, 1 / 200, 1, 0, 0, some 20000, some 0,
    10, 1, false⟩

/-! ## Basic lemmas about the embedding -/

theorem ratioPow_eq_pow (r : ℚ) (n : ℕ) : ratioPow r n = r ^ n := by
  induction n with
  | zero => rfl
  | succ n ih => rw [ratioPow, ih, pow_succ]

theorem lookupVault_id (vs : List Vault) (id : ℕ) (v : Vault)
    (h : lookupVault vs id = some v) : v ∈ vs ∧ v.vault_id = id := by
  refine ⟨List.mem_of_find?_eq_some h, ?_⟩
  have := List.find?_some h
  simpa using this

theorem lookupVault_cons (w : Vault) (tl : List Vault) (id : ℕ) :
    lookupVault (w :: tl) id = if w.vault_id = id then some w else lookupVault tl id := by
  by_cases h : w.vault_id = id
  · simp [lookupVault, List.find?, h]
  · simp [lookupVault, List.find?, beq_eq_false_iff_ne.mpr h, h]

theorem updateVault_cons (w : Vault) (tl : List Vault) (id : ℕ) (f : Vault → Vault) :
    updateVault (w :: tl) id f =
      (if w.vault_id = id then f w else w) :: updateVault tl id f := rfl

theorem removeVault_cons (w : Vault) (tl : List Vault) (id : ℕ) :
    removeVault (w :: tl) id =
      if w.vault_id = id then removeVault tl id else w :: removeVault tl id := by
  by_cases h : w.vault_id = id <;> simp [removeVault, List.filter_cons, h]

theorem lookupVault_self (vs : List Vault) (v : Vault) (hno : idsNodup vs) (hv : v ∈ vs) :
    lookupVault vs v.vault_id = some v := by
  induction vs with
  | nil => cases hv
  | cons w tl ih =>
    rcases List.mem_cons.mp hv with h | h
    · subst h
      simp [lookupVault_cons]
    · have hw : w.vault_id ∉ tl.map (fun u => u.vault_id) := (List.nodup_cons.mp hno).1
      have hne : w.vault_id ≠ v.vault_id := by
        intro he
        exact hw (he ▸ List.mem_map.mpr ⟨v, h, rfl⟩)
      rw [lookupVault_cons, if_neg hne]
      exact ih (List.nodup_cons.mp hno).2 h

theorem updateVault_of_not_mem (vs : List Vault) (id : ℕ) (f : Vault → Vault)
    (h : ∀ v ∈ vs, v.vault_id ≠ id) : updateVault vs id f = vs := by
  induction vs with
  | nil => rfl
  | cons w tl ih =>
    rw [updateVault_cons, if_neg (h w (List.mem_cons_self _ _)),
      ih (fun v hv => h v (List.mem_cons_of_mem _ hv))]

theorem lookupVault_updateVault_self (vs : List Vault) (id : ℕ) (f : Vault → Vault)
    (hf : ∀ v, (f v).vault_id = v.vault_id) :
    lookupVault (updateVault vs id f) id = (lookupVault vs id).map f := by
  induction vs with
  | nil => rfl
  | cons w tl ih =>
    rw [updateVault_cons, lookupVault_cons]
    by_cases hw : w.vault_id = id
    · rw [if_pos hw, lookupVault_cons, if_pos (by rw [hf, hw]), if_pos hw]
      rfl
    · rw [if_neg hw, lookupVault_cons, if_neg hw, if_neg hw]
      exact ih

theorem lookupVault_updateVault_ne (vs : List Vault) (id id2 : ℕ) (f : Vault → Vault)
    (hf : ∀ v, (f v).vault_id = v.vault_id) (hne : id2 ≠ id) :
    lookupVault (updateVault vs id f) id2 = lookupVault vs id2 := by
  induction vs with
  | nil => rfl
  | cons w tl ih =>
    rw [updateVault_cons, lookupVault_cons, lookupVault_cons]
    by_cases hw : w.vault_id = id
    · have h1 : (if w.vault_id = id then f w else w).vault_id ≠ id2 := by
        rw [if_pos hw, hf, hw]
        exact fun he => hne he.symm
      have h2 : w.vault_id ≠ id2 := by
        rw [hw]
        exact fun he => hne he.symm
      rw [if_neg h1, if_neg h2]
      exact ih
    · by_cases hw2 : w.vault_id = id2
      · rw [if_pos (by rwa [if_neg hw]), if_pos hw2, if_neg hw]
      · rw [if_neg (by rwa [if_neg hw]), if_neg hw2]
        exact ih

theorem updateVault_map_id (vs : List Vault) (id : ℕ) (f : Vault → Vault)
    (hf : ∀ v, (f v).vault_id = v.vault_id) :
    (updateVault vs id f).map (fun v => v.vault_id) = vs.map (fun v => v.vault_id) := by
  unfold updateVault
  rw [List.map_map]
  refine List.map_congr_left (fun v _ => ?_)
  by_cases hv : v.vault_id = id <;> simp [hv, hf]

theorem idsNodup_updateVault (vs : List Vault) (id : ℕ) (f : Vault → Vault)
    (hf : ∀ v, (f v).vault_id = v.vault_id) (hno : idsNodup vs) :
    idsNodup (updateVault vs id f) := by
  unfold idsNodup
  rw [updateVault_map_id vs id f hf]
  exact hno

theorem lookupVault_removeVault_self (vs : List Vault) (id : ℕ) :
    lookupVault (removeVault vs id) id = none := by
  refine List.find?_eq_none.mpr (fun v hv => ?_)
  have := (List.mem_filter.mp hv).2
  simpa using this

theorem lookupVault_eq_none (vs : List Vault) (id : ℕ)
    (h : ∀ v ∈ vs, v.vault_id ≠ id) : lookupVault vs id = none := by
  refine List.find?_eq_none.mpr (fun v hv => ?_)
  simpa using h v hv

/-- Sum of a vault projection after `updateVault`, in addition form. -/
theorem sumProj_updateVault (g : Vault → ℕ) (vs : List Vault) (id : ℕ) (f : Vault → Vault)
    (v : Vault) (hno : idsNodup vs) (hv : lookupVault vs id = some v) :
    ((updateVault vs id f).map g).sum + g v = (vs.map g).sum + g (f v) := by
  induction vs with
  | nil => simp [lookupVault] at hv
  | cons w tl ih =>
    rw [lookupVault_cons] at hv
    rw [updateVault_cons]
    by_cases hw : w.vault_id = id
    · rw [if_pos hw] at hv
      have hvw : w = v := Option.some.inj hv
      have htl : updateVault tl id f = tl := by
        refine updateVault_of_not_mem tl id f (fun u hu he => ?_)
        have hmem : w.vault_id ∈ tl.map (fun x => x.vault_id) := by
          rw [hw, ← he]
          exact List.mem_map.mpr ⟨u, hu, rfl⟩
        exact (List.nodup_cons.mp hno).1 hmem
      rw [if_pos hw, htl, ← hvw]
      simp only [List.map_cons, List.sum_cons]
      omega
    · rw [if_neg hw] at hv
      have := ih (List.nodup_cons.mp hno).2 hv
      rw [if_neg hw]
      simp only [List.map_cons, List.sum_cons]
      omega

/-- Sum of a vault projection after `removeVault`. -/
theorem sumProj_removeVault (g : Vault → ℕ) (vs : List Vault) (id : ℕ) (v : Vault)
    (hno : idsNodup vs) (hv : lookupVault vs id = some v) :
    ((removeVault vs id).map g).sum + g v = (vs.map g).sum := by
  induction vs with
  | nil => simp [lookupVault] at hv
  | cons w tl ih =>
    rw [lookupVault_cons] at hv
    rw [removeVault_cons]
    by_cases hw : w.vault_id = id
    · rw [if_pos hw] at hv
      have hvw : w = v := Option.some.inj hv
      have htl : removeVault tl id = tl := by
        refine List.filter_eq_self.mpr (fun u hu => ?_)
        simp only [bne_iff_ne, ne_eq]
        intro he
        have hmem : w.vault_id ∈ tl.map (fun x => x.vault_id) := by
          rw [hw, ← he]
          exact List.mem_map.mpr ⟨u, hu, rfl⟩
        exact (List.nodup_cons.mp hno).1 hmem
      rw [if_pos hw, htl, ← hvw]
      simp only [List.map_cons, List.sum_cons]
      omega
    · rw [if_neg hw] at hv
      have := ih (List.nodup_cons.mp hno).2 hv
      rw [if_neg hw]
      simp only [List.map_cons, List.sum_cons]
      omega

theorem floorToNat_cast (x : ℚ) (hx : 0 ≤ x) : ((⌊x⌋.toNat : ℕ) : ℚ) = (⌊x⌋ : ℚ) := by
  have h := Int.toNat_of_nonneg (Int.floor_nonneg.mpr hx)
  exact_mod_cast congrArg (fun z : ℤ => (z : ℚ)) h

theorem tokMulDec_le (a : ℕ) (r : ℚ) (hr : 0 ≤ r) :
    ((tokMulDec a r : ℕ) : ℚ) ≤ (a : ℚ) * r := by
  unfold tokMulDec
  rw [floorToNat_cast _ (mul_nonneg (Nat.cast_nonneg a) hr)]
  exact Int.floor_le _

theorem tokDivDec_le (a : ℕ) (r : ℚ) (hr : 0 < r) :
    ((tokDivDec a r : ℕ) : ℚ) ≤ (a : ℚ) / r := by
  unfold tokDivDec
  rw [floorToNat_cast _ (div_nonneg (Nat.cast_nonneg a) hr.le)]
  exact Int.floor_le _

theorem lt_tokDivDec_add_one (a : ℕ) (r : ℚ) (hr : 0 < r) :
    (a : ℚ) / r < ((tokDivDec a r : ℕ) : ℚ) + 1 := by
  unfold tokDivDec
  rw [floorToNat_cast _ (div_nonneg (Nat.cast_nonneg a) hr.le)]
  exact Int.lt_floor_add_one _

theorem tokDivDec_mono (a b : ℕ) (r : ℚ) (hr : 0 < r) (h : a ≤ b) :
    tokDivDec a r ≤ tokDivDec b r := by
  unfold tokDivDec
  have h2 : (a : ℚ) / r ≤ (b : ℚ) / r := by gcongr
  exact Int.toNat_le_toNat (Int.floor_le_floor h2)

theorem tokDivDec_zero (r : ℚ) : tokDivDec 0 r = 0 := by
  unfold tokDivDec
  norm_num

/-! ## Claim C1 -/

/-- C1 (spec-modelled prologue): every user-facing vault operation rejects
anonymous callers, fails when the mode is `ReadOnly` (except `repay_to_vault`
and a zero-debt `close_vault`), and fails when the last oracle price is
missing or older than `PRICE_MAX_AGE` (10 minutes) — in each case the body is
never invoked and the state is unchanged. -/
theorem c1_operation_prologue {α : Type} (s : State) (op : VaultOp) (caller now : ℕ)
    (cz : Bool) (body : State → OpRun α) :
    (caller = anonymousPrincipal →
      runVaultOp s op caller now cz body =
        ⟨Outcome.err ProtocolError.AnonymousCallerNotAllowed, s, []⟩) ∧
    (s.mode = Mode.ReadOnly →
      ¬(op = VaultOp.repayOp ∨ (op = VaultOp.closeOp ∧ cz = true)) →
      ∃ e, runVaultOp s op caller now cz body = ⟨Outcome.err e, s, []⟩) ∧
    (∀ t, s.last_icp_timestamp = some t → 10 * 60 * 1000000000 < now - t →
      ∃ e, runVaultOp s op caller now cz body = ⟨Outcome.err e, s, []⟩) ∧
    (s.last_icp_timestamp = none →
      ∃ e, runVaultOp s op caller now cz body = ⟨Outcome.err e, s, []⟩) := by
  refine ⟨?_, ?_, ?_, ?_⟩
  · intro h
    simp [runVaultOp, opPrologue, h]
  · intro hm hop
    by_cases hc : caller = anonymousPrincipal
    · exact ⟨ProtocolError.AnonymousCallerNotAllowed, by simp [runVaultOp, opPrologue, hc]⟩
    · refine ⟨ProtocolError.TemporarilyUnavailable, ?_⟩
      have hav : s.mode.is_available = false := by rw [hm]; rfl
      simp [runVaultOp, opPrologue, hc, hav, hop]
  · intro t ht hstale
    by_cases hc : caller = anonymousPrincipal
    · exact ⟨ProtocolError.AnonymousCallerNotAllowed, by simp [runVaultOp, opPrologue, hc]⟩
    · by_cases hm : ¬(s.mode.is_available = true) ∧
          ¬(op = VaultOp.repayOp ∨ (op = VaultOp.closeOp ∧ cz = true))
      · exact ⟨ProtocolError.TemporarilyUnavailable,
          by simp [runVaultOp, opPrologue, hc, hm.1, hm.2]⟩
      · refine ⟨ProtocolError.TemporarilyUnavailable, ?_⟩
        simp [runVaultOp, opPrologue, hc, hm, State.check_price_not_too_old, ht, hstale]
  · intro ht
    by_cases hc : caller = anonymousPrincipal
    · exact ⟨ProtocolError.AnonymousCallerNotAllowed, by simp [runVaultOp, opPrologue, hc]⟩
    · by_cases hm : ¬(s.mode.is_available = true) ∧
          ¬(op = VaultOp.repayOp ∨ (op = VaultOp.closeOp ∧ cz = true))
      · exact ⟨ProtocolError.TemporarilyUnavailable,
          by simp [runVaultOp, opPrologue, hc, hm.1, hm.2]⟩
      · refine ⟨ProtocolError.TemporarilyUnavailable, ?_⟩
        simp [runVaultOp, opPrologue, hc, hm, State.check_price_not_too_old, ht]

/-- Witness for C1: a concrete anonymous borrow attempt is rejected with the
state unchanged. -/
theorem c1_operation_prologue_witness :
    runVaultOp stateOwned VaultOp.borrowOp anonymousPrincipal 0 false
        (fun s => ⟨Outcome.ok (0 : ℕ), s, []⟩) =
      ⟨Outcome.err ProtocolError.AnonymousCallerNotAllowed, stateOwned, []⟩ :=
  (c1_operation_prologue stateOwned VaultOp.borrowOp anonymousPrincipal 0 false
    (fun s => ⟨Outcome.ok (0 : ℕ), s, []⟩)).1 rfl

/-! ## Claim C2 -/

/-- C2 (amended): in `State::liquidate_vault` the partial-liquidation branch
fires exactly when the mode is `Recovery` and the vault's collateralization
ratio is strictly above `MINIMUM_COLLATERAL_RATIO` (no `CCR` upper bound is
checked by the function itself); in that case the vault's debt is set to 0,
its collateral is reduced by `(debt × MCR) / price`, the vault remains in the
store, and the pending-transfer queue is left unchanged; in every other case
the vault is fully removed. -/
theorem liquidate_vault_of_lookup (s : State) (vault_id : ℕ) (mode : Mode) (rate : ℚ)
    (vault : Vault) (hv : lookupVault s.vault_id_to_vaults vault_id = some vault) :
    s.liquidate_vault vault_id mode rate =
      (if mode = Mode.Recovery ∧ minCollateralRatio < computeCollateralRatio vault rate then
        (if tokDivDec (tokMulDec vault.borrowed_icusd_amount minCollateralRatio) rate ≤
            vault.icp_margin_amount then
          some (s.setVaults (updateVault s.vault_id_to_vaults vault_id (fun v =>
            { v with borrowed_icusd_amount := 0,
                     icp_margin_amount := v.icp_margin_amount -
                       tokDivDec (tokMulDec vault.borrowed_icusd_amount minCollateralRatio)
                         rate })))
        else none)
      else some (s.setVaults (removeVault s.vault_id_to_vaults vault_id))) := by
  unfold State.liquidate_vault
  rw [hv]
  rfl

theorem c2_liquidate_vault (s : State) (vault_id : ℕ) (mode : Mode) (rate : ℚ) (vault : Vault)
    (hv : lookupVault s.vault_id_to_vaults vault_id = some vault) :
    (mode = Mode.Recovery ∧ minCollateralRatio < computeCollateralRatio vault rate →
      tokDivDec (tokMulDec vault.borrowed_icusd_amount minCollateralRatio) rate ≤
          vault.icp_margin_amount →
      ∃ s', s.liquidate_vault vault_id mode rate = some s' ∧
        lookupVault s'.vault_id_to_vaults vault_id =
          some { vault with
            borrowed_icusd_amount := 0,
            icp_margin_amount := vault.icp_margin_amount -
              tokDivDec (tokMulDec vault.borrowed_icusd_amount minCollateralRatio) rate } ∧
        s'.pending_margin_transfers = s.pending_margin_transfers) ∧
    (¬(mode = Mode.Recovery ∧ minCollateralRatio < computeCollateralRatio vault rate) →
      s.liquidate_vault vault_id mode rate =
        some (s.setVaults (removeVault s.vault_id_to_vaults vault_id)) ∧
      lookupVault (removeVault s.vault_id_to_vaults vault_id) vault_id = none) := by
  constructor
  · intro hcond hassert
    refine ⟨s.setVaults (updateVault s.vault_id_to_vaults vault_id (fun v =>
      { v with borrowed_icusd_amount := 0,
               icp_margin_amount := v.icp_margin_amount -
                 tokDivDec (tokMulDec vault.borrowed_icusd_amount minCollateralRatio)
                   rate })), ?_, ?_, rfl⟩
    · rw [liquidate_vault_of_lookup s vault_id mode rate vault hv, if_pos hcond,
        if_pos hassert]
    · show lookupVault
        ((s.setVaults (updateVault s.vault_id_to_vaults vault_id (fun v =>
          { v with borrowed_icusd_amount := 0,
                   icp_margin_amount := v.icp_margin_amount -
                     tokDivDec (tokMulDec vault.borrowed_icusd_amount minCollateralRatio)
                       rate }))).vault_id_to_vaults) vault_id = _
      rw [show (s.setVaults (updateVault s.vault_id_to_vaults vault_id (fun v =>
          { v with borrowed_icusd_amount := 0,
                   icp_margin_amount := v.icp_margin_amount -
                     tokDivDec (tokMulDec vault.borrowed_icusd_amount minCollateralRatio)
                       rate }))).vault_id_to_vaults =
        updateVault s.vault_id_to_vaults vault_id (fun v =>
          { v with borrowed_icusd_amount := 0,
                   icp_margin_amount := v.icp_margin_amount -
                     tokDivDec (tokMulDec vault.borrowed_icusd_amount minCollateralRatio)
                       rate }) from rfl]
      rw [lookupVault_updateVault_self s.vault_id_to_vaults vault_id
        (fun v =>
          { v with borrowed_icusd_amount := 0,
                   icp_margin_amount := v.icp_margin_amount -
                     tokDivDec (tokMulDec vault.borrowed_icusd_amount minCollateralRatio)
                       rate })
        (fun v => rfl), hv]
      rfl
  · intro hcond
    constructor
    · rw [liquidate_vault_of_lookup s vault_id mode rate vault hv, if_neg hcond]
    · exact lookupVault_removeVault_self _ _

/-- Witness for C2 at concrete inputs: the same state is partially liquidated
at rate 2 (ratio 2 > MCR) and fully removed outside Recovery. -/
theorem c2_liquidate_vault_witness :
    (∃ s', stateC2.liquidate_vault 0 Mode.Recovery 2 = some s' ∧
      lookupVault s'.vault_id_to_vaults 0 =
        some { vaultAtMcr with borrowed_icusd_amount := 0,
                               icp_margin_amount := 33500000 } ∧
      s'.pending_margin_transfers = stateC2.pending_margin_transfers) ∧
    stateC2.liquidate_vault 0 Mode.GeneralAvailability 2 =
      some { stateC2 with vault_id_to_vaults := [] } := by
  have hcr : minCollateralRatio < computeCollateralRatio vaultAtMcr 2 := by
    norm_num [computeCollateralRatio, vaultAtMcr, minCollateralRatio, tokDivTok, tokMulDec]
    repeat (first | simp | norm_num)
  have hpm : tokDivDec (tokMulDec vaultAtMcr.borrowed_icusd_amount minCollateralRatio) 2 =
      66500000 := by
    norm_num [tokDivDec, tokMulDec, vaultAtMcr, minCollateralRatio]
    repeat (first | simp | norm_num)
  constructor
  · have h := (c2_liquidate_vault stateC2 0 Mode.Recovery 2 vaultAtMcr rfl).1
      ⟨rfl, hcr⟩ (by rw [hpm]; norm_num [vaultAtMcr])
    rcases h with ⟨s', h1, h2, h3⟩
    refine ⟨s', h1, ?_, h3⟩
    rw [h2, hpm]
    norm_num [vaultAtMcr]
  · have h := (c2_liquidate_vault stateC2 0 Mode.GeneralAvailability 2 vaultAtMcr rfl).2
      (by rintro ⟨h, -⟩; cases h)
    exact h.1

/-- C2 counterexample: in Recovery at a collateralization ratio of exactly
`MCR = 1.33` (inside the claim's `[MCR, CCR)` window) the source fully removes
the vault instead of partially liquidating it; and a genuine partial
liquidation enqueues nothing in the pending-transfer queue. -/
theorem c2_counterexample :
    computeCollateralRatio vaultAtMcr (133 / 100) = minCollateralRatio ∧
    minCollateralRatio < recoveryCollateralRatio ∧
    stateC2.liquidate_vault 0 Mode.Recovery (133 / 100) =
      some { stateC2 with vault_id_to_vaults := [] } ∧
    stateC2.liquidate_vault 0 Mode.Recovery 2 =
      some { stateC2 with vault_id_to_vaults := [⟨1, 0, 33500000, 0⟩] } ∧
    stateC2.pending_margin_transfers = [] := by
  have hcr : computeCollateralRatio vaultAtMcr (133 / 100) = minCollateralRatio := by
    norm_num [computeCollateralRatio, vaultAtMcr, minCollateralRatio, tokDivTok, tokMulDec]
    repeat (first | simp | norm_num)
  have hcr2 : minCollateralRatio < computeCollateralRatio vaultAtMcr 2 := by
    norm_num [computeCollateralRatio, vaultAtMcr, minCollateralRatio, tokDivTok, tokMulDec]
    repeat (first | simp | norm_num)
  have hpm : tokDivDec (tokMulDec vaultAtMcr.borrowed_icusd_amount minCollateralRatio) 2 =
      66500000 := by
    norm_num [tokDivDec, tokMulDec, vaultAtMcr, minCollateralRatio]
    repeat (first | simp | norm_num)
  refine ⟨hcr, by norm_num [minCollateralRatio, recoveryCollateralRatio], ?_, ?_, rfl⟩
  · rw [liquidate_vault_of_lookup stateC2 0 Mode.Recovery (133 / 100) vaultAtMcr rfl,
      if_neg (by rw [hcr]; rintro ⟨-, h⟩; exact lt_irrefl _ h)]
    rfl
  · rw [liquidate_vault_of_lookup stateC2 0 Mode.Recovery 2 vaultAtMcr rfl,
      if_pos ⟨rfl, hcr2⟩, if_pos (by rw [hpm]; norm_num [vaultAtMcr])]
    simp only [hpm]
    rfl

/-! ## Claim C7 -/

/-- C7 (code bug): with zero total outstanding debt a redemption is *not*
rejected: after a successful ledger transfer `redeem_icp` reports success,
sets the base rate to 0 and the last-redemption timestamp to `now`, and the
inner `State::redeem_on_vaults` exits with the entire net amount unconverted —
the state its own `debug_assert!(icusd_amount_to_convert == 0)` forbids. -/
theorem c7_redeem_zero_debt :
    stateC7.total_borrowed_icusd_amount = 0 ∧
    stateC7.current_base_rate = 7 / 100 ∧
    stateC7.last_redemption_time = 0 ∧
    (redeem_icp stateC7 1000000000 42 (Except.ok ()) (Except.ok 3)).outcome =
      Outcome.ok ⟨3, 0⟩ ∧
    (redeem_icp stateC7 1000000000 42 (Except.ok ()) (Except.ok 3)).state.current_base_rate
      = 0 ∧
    (redeem_icp stateC7 1000000000 42 (Except.ok ()) (Except.ok 3)).state.last_redemption_time
      = 42 ∧
    ({ stateC7 with current_base_rate := 0, last_redemption_time := 42 }.redeem_on_vaults
        1000000000 5) =
      some ({ stateC7 with current_base_rate := 0, last_redemption_time := 42 },
        1000000000) := by
  have hfee : stateC7.get_redemption_fee 1000000000 42 = 0 := by
    norm_num [State.get_redemption_fee, computeRedemptionFee,
      State.total_borrowed_icusd_amount, totalBorrowed, stateC7]
  have hloop : ({ stateC7 with current_base_rate := 0, last_redemption_time := 42
      }.redeem_on_vaults 1000000000 5) =
      some ({ stateC7 with current_base_rate := 0, last_redemption_time := 42 },
        1000000000) := by
    simp [State.redeem_on_vaults, redeemOrder, redeemLoop, stateC7]
  have hrun : redeem_icp stateC7 1000000000 42 (Except.ok ()) (Except.ok 3) =
      ⟨Outcome.ok ⟨3, 0⟩,
        { stateC7 with current_base_rate := 0, last_redemption_time := 42 }, []⟩ := by
    simp [redeem_icp, redeemStateUpdate, stateC7, MIN_ICUSD_AMOUNT, tokMulDec,
      recordRedemptionOnVaults, State.redeem_on_vaults, redeemOrder, redeemLoop,
      State.get_redemption_fee, computeRedemptionFee, State.total_borrowed_icusd_amount,
      totalBorrowed]
  exact ⟨rfl, rfl, rfl, by rw [hrun], by rw [hrun], by rw [hrun], hloop⟩

/-! ## Claim C10 -/

/-- C10 (amended): for a vault id not in the store, `repay_to_vault` and
`close_vault` panic on the unguarded vault lookup before the ownership (and,
for repay, minimum-amount) checks; `borrow_from_vault` and
`add_margin_to_vault` also panic before the ownership check, but only after
their minimum-amount check has passed. -/
theorem c10_missing_vault_panics (s : State) (caller id amount : ℕ)
    (h : lookupVault s.vault_id_to_vaults id = none) :
    (∀ mint : Except Unit ℕ, MIN_ICUSD_AMOUNT ≤ amount →
      (borrow_from_vault s caller ⟨id, amount⟩ (Except.ok ()) mint).outcome =
        Outcome.trap) ∧
    (∀ tr : Except Unit ℕ,
      (repay_to_vault s caller ⟨id, amount⟩ (Except.ok ()) tr).outcome = Outcome.trap) ∧
    (∀ tr : Except (Option ℕ) ℕ, MIN_ICP_AMOUNT ≤ amount →
      (add_margin_to_vault s caller ⟨id, amount⟩ (Except.ok ()) tr).outcome =
        Outcome.trap) ∧
    (∀ tr : Except Unit ℕ,
      (close_vault s caller id (Except.ok ()) tr).outcome = Outcome.trap) := by
  refine ⟨?_, ?_, ?_, ?_⟩
  · intro mint hge
    simp [borrow_from_vault, h, Nat.not_lt.mpr hge]
  · intro tr
    simp [repay_to_vault, h]
  · intro tr hge
    simp [add_margin_to_vault, h, Nat.not_lt.mpr hge]
  · intro tr
    simp [close_vault, h]

/-- Witness for C10: concrete panics on vault id 99 of the empty store. -/
theorem c10_missing_vault_panics_witness :
    (repay_to_vault stateEmpty 1 ⟨99, 1000000000⟩ (Except.ok ()) (Except.ok 1)).outcome =
      Outcome.trap ∧
    (close_vault stateEmpty 1 99 (Except.ok ()) (Except.ok 1)).outcome = Outcome.trap ∧
    (borrow_from_vault stateEmpty 1 ⟨99, 1000000000⟩ (Except.ok ())
        (Except.ok 1)).outcome = Outcome.trap := by
  have h := c10_missing_vault_panics stateEmpty 1 99 1000000000 rfl
  exact ⟨h.2.1 (Except.ok 1), h.2.2.2 (Except.ok 1), h.1 (Except.ok 1) (by decide)⟩

/-- C10 counterexample: on a missing vault id a below-minimum amount makes
`borrow_from_vault` and `add_margin_to_vault` return `AmountTooLow` instead of
panicking, so for them the panic does not come before the amount check. -/
theorem c10_counterexample :
    lookupVault stateEmpty.vault_id_to_vaults 99 = none ∧
    (borrow_from_vault stateEmpty 1 ⟨99, 0⟩ (Except.ok ()) (Except.ok 1)).outcome =
      Outcome.err (ProtocolError.AmountTooLow MIN_ICUSD_AMOUNT) ∧
    (add_margin_to_vault stateEmpty 1 ⟨99, 0⟩ (Except.ok ()) (Except.ok 1)).outcome =
      Outcome.err (ProtocolError.AmountTooLow MIN_ICP_AMOUNT) := by
  refine ⟨rfl, rfl, rfl⟩

/-! ## Claim C5 -/

theorem idsNodup_of_sorted (vs : List Vault)
    (h : vs.Pairwise (fun a b => a.vault_id < b.vault_id)) : idsNodup vs := by
  have h2 : (vs.map (fun v => v.vault_id)).Pairwise (fun a b => a ≠ b) :=
    List.pairwise_map.mpr (h.imp fun hlt => Nat.ne_of_lt hlt)
  exact h2

theorem sum_tokMulDec_le_q (T M : ℕ) :
    ∀ ms : List ℕ, (((ms.map (fun m => tokMulDec T (tokDivTok m M))).sum : ℕ) : ℚ) ≤
      (T : ℚ) * (ms.sum : ℚ) / (M : ℚ) := by
  intro ms
  induction ms with
  | nil => simp
  | cons m ms ih =>
    simp only [List.map_cons, List.sum_cons, Nat.cast_add]
    have h1 : ((tokMulDec T (tokDivTok m M) : ℕ) : ℚ) ≤ (T : ℚ) * ((m : ℚ) / (M : ℚ)) :=
      tokMulDec_le _ _ (div_nonneg (Nat.cast_nonneg _) (Nat.cast_nonneg _))
    have h2 : (T : ℚ) * ((m : ℚ) / (M : ℚ)) + (T : ℚ) * (ms.sum : ℚ) / (M : ℚ) =
        (T : ℚ) * ((m : ℚ) + (ms.sum : ℚ)) / (M : ℚ) := by ring
    calc ((tokMulDec T (tokDivTok m M) : ℕ) : ℚ) +
          ((ms.map (fun m => tokMulDec T (tokDivTok m M))).sum : ℚ)
        ≤ (T : ℚ) * ((m : ℚ) / (M : ℚ)) + (T : ℚ) * (ms.sum : ℚ) / (M : ℚ) :=
          add_le_add h1 ih
      _ = (T : ℚ) * ((m : ℚ) + (ms.sum : ℚ)) / (M : ℚ) := h2

theorem sum_tokMulDec_shares_le (T M : ℕ) (hM : M ≠ 0) (ms : List ℕ) (hsum : ms.sum ≤ M) :
    (ms.map (fun m => tokMulDec T (tokDivTok m M))).sum ≤ T := by
  have h := sum_tokMulDec_le_q T M ms
  have hMq : (0 : ℚ) < (M : ℚ) := by exact_mod_cast Nat.pos_of_ne_zero hM
  have h2 : (T : ℚ) * (ms.sum : ℚ) / (M : ℚ) ≤ (T : ℚ) := by
    rw [div_le_iff₀ hMq]
    have : (ms.sum : ℚ) ≤ (M : ℚ) := by exact_mod_cast hsum
    calc (T : ℚ) * (ms.sum : ℚ) ≤ (T : ℚ) * (M : ℚ) :=
        mul_le_mul_of_nonneg_left this (Nat.cast_nonneg _)
      _ = (T : ℚ) * (M : ℚ) := rfl
  exact_mod_cast h.trans h2

theorem lookupVault_isSome_updateVault (vs : List Vault) (id id2 : ℕ) (f : Vault → Vault)
    (hf : ∀ v, (f v).vault_id = v.vault_id) :
    lookupVault (updateVault vs id f) id2 = none ↔ lookupVault vs id2 = none := by
  by_cases h : id2 = id
  · subst h
    rw [lookupVault_updateVault_self vs id2 f hf]
    cases lookupVault vs id2 <;> simp
  · rw [lookupVault_updateVault_ne vs id id2 f hf h]

theorem applyDistributeEntries_eq (es : List DistributeToVaultEntry) :
    ∀ vs : List Vault,
    (∀ e ∈ es, lookupVault vs e.vault_id ≠ none) →
    (es.map (fun e => e.vault_id)).Nodup →
    applyDistributeEntries vs es = some (vs.map (fun v =>
      match es.find? (fun e => e.vault_id == v.vault_id) with
      | some e => { v with
          icp_margin_amount := v.icp_margin_amount + e.icp_share_amount,
          borrowed_icusd_amount := v.borrowed_icusd_amount + e.icusd_share_amount }
      | none => v)) := by
  induction es with
  | nil =>
    intro vs _ _
    simp [applyDistributeEntries]
  | cons e es ih =>
    intro vs hmem hno
    cases hv : lookupVault vs e.vault_id with
    | none => exact absurd hv (hmem e (List.mem_cons_self _ _))
    | some w =>
      unfold applyDistributeEntries
      simp only [hv]
      have hid : ∀ v : Vault, ((fun v : Vault =>
          { v with icp_margin_amount := v.icp_margin_amount + e.icp_share_amount,
                   borrowed_icusd_amount :=
                     v.borrowed_icusd_amount + e.icusd_share_amount }) v).vault_id =
          v.vault_id := fun v => rfl
      have hmem2 : ∀ e2 ∈ es, lookupVault (updateVault vs e.vault_id (fun v =>
          { v with icp_margin_amount := v.icp_margin_amount + e.icp_share_amount,
                   borrowed_icusd_amount :=
                     v.borrowed_icusd_amount + e.icusd_share_amount })) e2.vault_id ≠
          none := by
        intro e2 he2 hcon
        exact hmem e2 (List.mem_cons_of_mem _ he2)
          ((lookupVault_isSome_updateVault _ _ _ _ hid).mp hcon)
      have := ih (updateVault vs e.vault_id (fun v =>
        { v with icp_margin_amount := v.icp_margin_amount + e.icp_share_amount,
                 borrowed_icusd_amount := v.borrowed_icusd_amount + e.icusd_share_amount }))
        hmem2 (List.nodup_cons.mp hno).2
      rw [this]
      congr 1
      unfold updateVault
      rw [List.map_map]
      refine List.map_congr_left (fun v _ => ?_)
      by_cases hcase : v.vault_id = e.vault_id
      · have hhead : (e.vault_id == v.vault_id) = true := by simp [hcase]
        have hnone : es.find? (fun e2 => e2.vault_id == v.vault_id) = none := by
          refine List.find?_eq_none.mpr (fun e2 he2 => ?_)
          have : e.vault_id ∉ es.map (fun e2 => e2.vault_id) := (List.nodup_cons.mp hno).1
          simp only [beq_iff_eq]
          intro he
          exact this (hcase ▸ he ▸ List.mem_map.mpr ⟨e2, he2, rfl⟩)
        simp only [Function.comp, if_pos hcase, List.find?, hhead, hnone]
      · have hhead : (e.vault_id == v.vault_id) = false := by
          refine beq_eq_false_iff_ne.mpr (fun he => hcase he.symm)
        simp only [Function.comp, if_neg hcase, List.find?, hhead]

theorem applyDistributeEntries_sums (es : List DistributeToVaultEntry) :
    ∀ (vs vs1 : List Vault), idsNodup vs →
    applyDistributeEntries vs es = some vs1 →
    totalBorrowed vs1 = totalBorrowed vs + (es.map (fun e => e.icusd_share_amount)).sum ∧
    totalMargin vs1 = totalMargin vs + (es.map (fun e => e.icp_share_amount)).sum ∧
    vs1.map (fun v => v.vault_id) = vs.map (fun v => v.vault_id) := by
  induction es with
  | nil =>
    intro vs vs1 _ h
    rcases Option.some.inj h with rfl
    exact ⟨by simp, by simp, rfl⟩
  | cons e es ih =>
    intro vs vs1 hno h
    unfold applyDistributeEntries at h
    cases hv : lookupVault vs e.vault_id with
    | none => rw [hv] at h; cases h
    | some w =>
      rw [hv] at h
      have hid : ∀ v : Vault, ((fun v : Vault =>
          { v with icp_margin_amount := v.icp_margin_amount + e.icp_share_amount,
                   borrowed_icusd_amount :=
                     v.borrowed_icusd_amount + e.icusd_share_amount }) v).vault_id =
          v.vault_id := fun v => rfl
      have hno2 := idsNodup_updateVault vs e.vault_id (fun v : Vault =>
        { v with icp_margin_amount := v.icp_margin_amount + e.icp_share_amount,
                 borrowed_icusd_amount := v.borrowed_icusd_amount + e.icusd_share_amount })
        hid hno
      have hrec := ih _ vs1 hno2 h
      have hb := sumProj_updateVault (fun v => v.borrowed_icusd_amount) vs e.vault_id
        (fun v : Vault =>
          { v with icp_margin_amount := v.icp_margin_amount + e.icp_share_amount,
                   borrowed_icusd_amount := v.borrowed_icusd_amount + e.icusd_share_amount })
        w hno hv
      have hm := sumProj_updateVault (fun v => v.icp_margin_amount) vs e.vault_id
        (fun v : Vault =>
          { v with icp_margin_amount := v.icp_margin_amount + e.icp_share_amount,
                   borrowed_icusd_amount := v.borrowed_icusd_amount + e.icusd_share_amount })
        w hno hv
      simp only at hb hm
      refine ⟨?_, ?_, ?_⟩
      · have := hrec.1
        unfold totalBorrowed at this ⊢
        simp only [List.map_cons, List.sum_cons] at this ⊢
        omega
      · have := hrec.2.1
        unfold totalMargin at this ⊢
        simp only [List.map_cons, List.sum_cons] at this ⊢
        omega
      · rw [hrec.2.2, updateVault_map_id vs e.vault_id (fun v : Vault =>
          { v with icp_margin_amount := v.icp_margin_amount + e.icp_share_amount,
                   borrowed_icusd_amount := v.borrowed_icusd_amount + e.icusd_share_amount })
          hid]

theorem sum_map_add_vault (f g : Vault → ℕ) (l : List Vault) :
    (l.map (fun v => f v + g v)).sum = (l.map f).sum + (l.map g).sum := by
  induction l with
  | nil => rfl
  | cons v tl ih =>
    simp only [List.map_cons, List.sum_cons, ih]
    omega

theorem idsNodup_removeVault (vs : List Vault) (id : ℕ) (hno : idsNodup vs) :
    idsNodup (removeVault vs id) := by
  unfold idsNodup removeVault
  exact List.Nodup.sublist ((List.filter_sublist vs).map (fun v => v.vault_id)) hno

theorem mem_of_mem_removeVault (vs : List Vault) (id : ℕ) (v : Vault)
    (hv : v ∈ removeVault vs id) : v ∈ vs :=
  List.mem_of_mem_filter hv

theorem id_ne_of_mem_removeVault (vs : List Vault) (id : ℕ) (v : Vault)
    (hv : v ∈ removeVault vs id) : v.vault_id ≠ id := by
  have := List.of_mem_filter hv
  simpa using this

theorem removeVault_map (vs : List Vault) (id : ℕ) (g : Vault → Vault)
    (hg : ∀ v, (g v).vault_id = v.vault_id) :
    removeVault (vs.map g) id = (removeVault vs id).map g := by
  induction vs with
  | nil => rfl
  | cons w tl ih =>
    unfold removeVault at ih ⊢
    simp only [List.map_cons, List.filter_cons, hg w]
    cases h : (w.vault_id != id) <;> simp [h, ih]

theorem find?_entry_map (mk : Vault → DistributeToVaultEntry)
    (hmk : ∀ u, (mk u).vault_id = u.vault_id) :
    ∀ (l : List Vault) (v : Vault), v ∈ l →
      (l.map (fun u => u.vault_id)).Nodup →
      (l.map mk).find? (fun e => e.vault_id == v.vault_id) = some (mk v) := by
  intro l
  induction l with
  | nil => intro v hv; cases hv
  | cons u tl ih =>
    intro v hv hno
    simp only [List.map_cons] at hno
    rcases List.mem_cons.mp hv with h | h
    · subst h
      rw [List.map_cons, List.find?_cons_of_pos]
      simp [hmk]
    · have hne : u.vault_id ≠ v.vault_id := by
        intro he
        exact (List.nodup_cons.mp hno).1 (he ▸ List.mem_map.mpr ⟨v, h, rfl⟩)
      rw [List.map_cons, List.find?_cons_of_neg]
      · exact ih v h (List.nodup_cons.mp hno).2
      · simp [hmk, hne]

theorem distributeAcrossVaults_eq (vs : List Vault) (target : Vault) (v0 : Vault)
    (vrest : List Vault) (M : ℕ) (mk : Vault → DistributeToVaultEntry)
    (hvs : vs ≠ [])
    (hs : vs.filter (fun v => v.vault_id != target.vault_id) = v0 :: vrest)
    (hMdef : M = totalMargin (v0 :: vrest))
    (hM : M ≠ 0)
    (hmk : mk = fun v =>
      { vault_id := v.vault_id,
        icp_share_amount :=
          tokMulDec target.icp_margin_amount (tokDivTok v.icp_margin_amount M),
        icusd_share_amount :=
          tokMulDec target.borrowed_icusd_amount (tokDivTok v.icp_margin_amount M) }) :
    distributeAcrossVaults vs target = some
      ({ mk v0 with
          icusd_share_amount := (mk v0).icusd_share_amount +
            (target.borrowed_icusd_amount -
              (((v0 :: vrest).map mk).map (fun e => e.icusd_share_amount)).sum),
          icp_share_amount := (mk v0).icp_share_amount +
            (target.icp_margin_amount -
              (((v0 :: vrest).map mk).map (fun e => e.icp_share_amount)).sum) } ::
        vrest.map mk) := by
  subst hmk
  subst hMdef
  have hvs2 : vs.isEmpty = false := by
    cases vs with
    | nil => exact absurd rfl hvs
    | cons a l => rfl
  have hD : (((v0 :: vrest).map (fun v =>
      tokMulDec target.borrowed_icusd_amount
        (tokDivTok v.icp_margin_amount (totalMargin (v0 :: vrest)))))).sum ≤
      target.borrowed_icusd_amount := by
    have h := sum_tokMulDec_shares_le target.borrowed_icusd_amount
      (totalMargin (v0 :: vrest)) hM
      ((v0 :: vrest).map (fun v => v.icp_margin_amount)) (le_of_eq (by rfl))
    simpa [List.map_map, Function.comp] using h
  have hC : (((v0 :: vrest).map (fun v =>
      tokMulDec target.icp_margin_amount
        (tokDivTok v.icp_margin_amount (totalMargin (v0 :: vrest)))))).sum ≤
      target.icp_margin_amount := by
    have h := sum_tokMulDec_shares_le target.icp_margin_amount
      (totalMargin (v0 :: vrest)) hM
      ((v0 :: vrest).map (fun v => v.icp_margin_amount)) (le_of_eq (by rfl))
    simpa [List.map_map, Function.comp] using h
  simp only [distributeAcrossVaults, hvs2, Bool.false_eq_true, if_false, hs, if_neg hM,
    List.map_cons, List.map_map]
  split_ifs with h
  · simp [List.map_map, Function.comp]
  · exact absurd ⟨by simpa [List.map_map, Function.comp] using hD,
      by simpa [List.map_map, Function.comp] using hC⟩ h

theorem specRedistribute_sums (target : Vault) (v0 : Vault) (vrest : List Vault)
    (hM : totalMargin (v0 :: vrest) ≠ 0) :
    totalBorrowed (specRedistribute (v0 :: vrest) target) =
      totalBorrowed (v0 :: vrest) + target.borrowed_icusd_amount ∧
    totalMargin (specRedistribute (v0 :: vrest) target) =
      totalMargin (v0 :: vrest) + target.icp_margin_amount := by
  obtain ⟨M, hMdef⟩ : ∃ M, totalMargin (v0 :: vrest) = M := ⟨_, rfl⟩
  have hD : ((v0 :: vrest).map (fun v =>
      tokMulDec target.borrowed_icusd_amount (tokDivTok v.icp_margin_amount M))).sum ≤
      target.borrowed_icusd_amount := by
    have h := sum_tokMulDec_shares_le target.borrowed_icusd_amount M (hMdef ▸ hM)
      ((v0 :: vrest).map (fun v => v.icp_margin_amount))
      (le_of_eq (by rw [← hMdef]; simp [totalMargin]))
    simpa [List.map_map, Function.comp] using h
  have hC : ((v0 :: vrest).map (fun v =>
      tokMulDec target.icp_margin_amount (tokDivTok v.icp_margin_amount M))).sum ≤
      target.icp_margin_amount := by
    have h := sum_tokMulDec_shares_le target.icp_margin_amount M (hMdef ▸ hM)
      ((v0 :: vrest).map (fun v => v.icp_margin_amount))
      (le_of_eq (by rw [← hMdef]; simp [totalMargin]))
    simpa [List.map_map, Function.comp] using h
  have hMsum : v0.icp_margin_amount + (vrest.map (fun v => v.icp_margin_amount)).sum = M := by
    rw [← hMdef]
    simp [totalMargin]
  simp only [List.map_cons, List.sum_cons] at hD hC
  unfold specRedistribute
  simp only [List.map_cons]
  rw [hMdef]
  unfold totalBorrowed totalMargin
  simp only [List.map_cons, List.sum_cons, List.map_map, Function.comp_def]
  rw [sum_map_add_vault (fun v => v.borrowed_icusd_amount)
      (fun v => tokMulDec target.borrowed_icusd_amount (tokDivTok v.icp_margin_amount M)) vrest,
    sum_map_add_vault (fun v => v.icp_margin_amount)
      (fun v => tokMulDec target.icp_margin_amount (tokDivTok v.icp_margin_amount M)) vrest]
  constructor <;> omega

/-- C5: with the target vault present and the surviving vaults holding nonzero
total collateral, `redistribute_vault` succeeds; the resulting vault set is the
specification-side pro-rata redistribution (each survivor gains the truncated
share `s_i = collateral_i / total` of the target collateral and debt, with the
integer rounding residual added to the first survivor in iteration order); the
target is removed; and the totals of debt and of collateral over the remaining
vaults equal the pre-removal totals exactly. -/
theorem c5_redistribute_vault (s : State) (vid : ℕ) (target : Vault)
    (hno : idsNodup s.vault_id_to_vaults)
    (hl : lookupVault s.vault_id_to_vaults vid = some target)
    (hM : totalMargin (removeVault s.vault_id_to_vaults vid) ≠ 0) :
    ∃ vs1, s.redistribute_vault vid = some (s.setVaults vs1) ∧
      vs1 = specRedistribute (removeVault s.vault_id_to_vaults vid) target ∧
      totalBorrowed vs1 = totalBorrowed s.vault_id_to_vaults ∧
      totalMargin vs1 = totalMargin s.vault_id_to_vaults ∧
      lookupVault vs1 vid = none := by
  obtain ⟨hmem, htid⟩ := lookupVault_id s.vault_id_to_vaults vid target hl
  cases hsv : removeVault s.vault_id_to_vaults vid with
  | nil =>
    rw [hsv] at hM
    exact absurd rfl hM
  | cons v0 vrest =>
    rw [hsv] at hM
    have hfilter : s.vault_id_to_vaults.filter (fun v => v.vault_id != target.vault_id)
        = v0 :: vrest := by
      have h2 : (fun v : Vault => v.vault_id != target.vault_id)
          = (fun v : Vault => v.vault_id != vid) := by rw [htid]
      rw [h2]
      exact hsv
    have hne : s.vault_id_to_vaults ≠ [] := List.ne_nil_of_mem hmem
    obtain ⟨M, hMdef⟩ : ∃ M, totalMargin (v0 :: vrest) = M := ⟨_, rfl⟩
    have hM2 : M ≠ 0 := hMdef ▸ hM
    obtain ⟨mk, hmkdef⟩ : ∃ mk : Vault → DistributeToVaultEntry, mk = fun v =>
        { vault_id := v.vault_id,
          icp_share_amount :=
            tokMulDec target.icp_margin_amount (tokDivTok v.icp_margin_amount M),
          icusd_share_amount :=
            tokMulDec target.borrowed_icusd_amount (tokDivTok v.icp_margin_amount M) } :=
      ⟨_, rfl⟩
    have hdist := distributeAcrossVaults_eq s.vault_id_to_vaults target v0 vrest M mk
      hne hfilter hMdef.symm hM2 hmkdef
    obtain ⟨es, hesdef⟩ : ∃ es : List DistributeToVaultEntry, es =
        ({ mk v0 with
            icusd_share_amount := (mk v0).icusd_share_amount +
              (target.borrowed_icusd_amount -
                (((v0 :: vrest).map mk).map (fun e => e.icusd_share_amount)).sum),
            icp_share_amount := (mk v0).icp_share_amount +
              (target.icp_margin_amount -
                (((v0 :: vrest).map mk).map (fun e => e.icp_share_amount)).sum) } ::
          vrest.map mk) := ⟨_, rfl⟩
    rw [← hesdef] at hdist
    have hmkid : ∀ u, (mk u).vault_id = u.vault_id := by
      intro u
      rw [hmkdef]
    have hsurvno : ((v0 :: vrest).map (fun v => v.vault_id)).Nodup := by
      have h3 := idsNodup_removeVault s.vault_id_to_vaults vid hno
      rw [hsv] at h3
      exact h3
    have hsubmem : ∀ v ∈ v0 :: vrest, v ∈ s.vault_id_to_vaults := by
      intro v hv
      exact mem_of_mem_removeVault s.vault_id_to_vaults vid v (hsv ▸ hv)
    have hesids : es.map (fun e => e.vault_id) = (v0 :: vrest).map (fun v => v.vault_id) := by
      rw [hesdef, hmkdef]
      simp [List.map_map, Function.comp_def]
    have hmem2 : ∀ e ∈ es, lookupVault s.vault_id_to_vaults e.vault_id ≠ none := by
      intro e he
      have hid : e.vault_id ∈ (v0 :: vrest).map (fun v => v.vault_id) := by
        rw [← hesids]
        exact List.mem_map.mpr ⟨e, he, rfl⟩
      obtain ⟨v, hv, heq⟩ := List.mem_map.mp hid
      rw [← heq, lookupVault_self s.vault_id_to_vaults v hno (hsubmem v hv)]
      simp
    have hnodup2 : (es.map (fun e => e.vault_id)).Nodup := by
      rw [hesids]
      exact hsurvno
    have happly := applyDistributeEntries_eq es s.vault_id_to_vaults hmem2 hnodup2
    obtain ⟨g, hgdef⟩ : ∃ g : Vault → Vault, g = fun v =>
        match es.find? (fun e => e.vault_id == v.vault_id) with
        | some e => { v with
            icp_margin_amount := v.icp_margin_amount + e.icp_share_amount,
            borrowed_icusd_amount := v.borrowed_icusd_amount + e.icusd_share_amount }
        | none => v := ⟨_, rfl⟩
    rw [← hgdef] at happly
    have hgid : ∀ v, (g v).vault_id = v.vault_id := by
      intro v
      rw [hgdef]
      cases h : es.find? (fun e => e.vault_id == v.vault_id) <;> simp [h]
    have hrun : s.redistribute_vault vid =
        some (s.setVaults (removeVault (s.vault_id_to_vaults.map g) vid)) := by
      unfold State.redistribute_vault
      simp only [hl, hdist, happly, State.setVaults]
    have hremap : removeVault (s.vault_id_to_vaults.map g) vid = (v0 :: vrest).map g := by
      rw [removeVault_map s.vault_id_to_vaults vid g hgid, hsv]
    have hfind0 : es.find? (fun e => e.vault_id == v0.vault_id) = some
        ({ mk v0 with
            icusd_share_amount := (mk v0).icusd_share_amount +
              (target.borrowed_icusd_amount -
                (((v0 :: vrest).map mk).map (fun e => e.icusd_share_amount)).sum),
            icp_share_amount := (mk v0).icp_share_amount +
              (target.icp_margin_amount -
                (((v0 :: vrest).map mk).map (fun e => e.icp_share_amount)).sum) }) := by
      rw [hesdef]
      exact List.find?_cons_of_pos _ (by simp [hmkid])
    have hcons : v0.vault_id ∉ vrest.map (fun v => v.vault_id) ∧
        (vrest.map (fun v => v.vault_id)).Nodup := by
      rw [List.map_cons] at hsurvno
      exact List.nodup_cons.mp hsurvno
    have hfindtail : ∀ v ∈ vrest, es.find? (fun e => e.vault_id == v.vault_id)
        = some (mk v) := by
      intro v hv
      have hv0ne : v0.vault_id ≠ v.vault_id := by
        intro he
        exact hcons.1 (he ▸ List.mem_map.mpr ⟨v, hv, rfl⟩)
      rw [hesdef, List.find?_cons_of_neg]
      · exact find?_entry_map mk hmkid vrest v hv hcons.2
      · simp [hmkid, hv0ne]
    have hmap : (v0 :: vrest).map g = specRedistribute (v0 :: vrest) target := by
      unfold specRedistribute
      simp only [List.map_cons]
      rw [hMdef]
      congr 1
      · rw [hgdef]
        simp only [hfind0]
        rw [hmkdef]
        simp [List.map_map, Function.comp_def, Nat.add_assoc]
      · refine List.map_congr_left (fun v hv => ?_)
        rw [hgdef]
        simp only [hfindtail v hv]
        rw [hmkdef]
    have hsums := specRedistribute_sums target v0 vrest hM
    have hb := sumProj_removeVault (fun v => v.borrowed_icusd_amount)
      s.vault_id_to_vaults vid target hno hl
    have hm2 := sumProj_removeVault (fun v => v.icp_margin_amount)
      s.vault_id_to_vaults vid target hno hl
    rw [hsv] at hb hm2
    simp only at hb hm2
    refine ⟨specRedistribute (v0 :: vrest) target, ?_, ?_, ?_, ?_, ?_⟩
    · rw [hrun, hremap, hmap]
    · rfl
    · have h4 := hsums.1
      unfold totalBorrowed at h4 ⊢
      omega
    · have h4 := hsums.2
      unfold totalMargin at h4 ⊢
      omega
    · refine lookupVault_eq_none _ _ (fun v hv => ?_)
      rw [← hmap] at hv
      obtain ⟨u, hu, rfl⟩ := List.mem_map.mp hv
      rw [hgid u]
      exact id_ne_of_mem_removeVault s.vault_id_to_vaults vid u (by rw [hsv]; exact hu)

theorem c5_redistribute_vault_witness :
    idsNodup stateC5.vault_id_to_vaults ∧
    totalMargin (removeVault stateC5.vault_id_to_vaults 3) ≠ 0 ∧
    ∃ vs1, stateC5.redistribute_vault 3 = some (stateC5.setVaults vs1) ∧
      vs1 = specRedistribute (removeVault stateC5.vault_id_to_vaults 3)
        ⟨3, 400000, 700000, 3⟩ ∧
      totalBorrowed vs1 = totalBorrowed stateC5.vault_id_to_vaults ∧
      totalMargin vs1 = totalMargin stateC5.vault_id_to_vaults ∧
      lookupVault vs1 3 = none :=
  ⟨by unfold idsNodup; decide, by decide,
    c5_redistribute_vault stateC5 3 ⟨3, 400000, 700000, 3⟩ (by unfold idsNodup; decide) rfl
      (by decide)⟩

/-! ## Claim C3 -/

theorem specRedeemTakes_fst (l : List (ℕ × ℕ)) :
    ∀ r : ℕ, (specRedeemTakes r l).map Prod.fst = l.map Prod.fst := by
  induction l with
  | nil => intro r; rfl
  | cons p rest ih =>
    intro r
    cases p with
    | mk id d => simp [specRedeemTakes, ih]

theorem specRedeemTakes_le (l : List (ℕ × ℕ)) :
    ∀ r : ℕ, ∀ p ∈ specRedeemTakes r l, ∃ q ∈ l, p.1 = q.1 ∧ p.2 ≤ q.2 := by
  induction l with
  | nil =>
    intro r p hp
    cases hp
  | cons q rest ih =>
    intro r p hp
    cases q with
    | mk id d =>
      rcases List.mem_cons.mp hp with h | h
      · exact ⟨(id, d), List.mem_cons_self _ _, by rw [h], by rw [h]; exact Nat.min_le_right _ _⟩
      · obtain ⟨q2, hq2, h1, h2⟩ := ih _ p h
        exact ⟨q2, List.mem_cons_of_mem _ hq2, h1, h2⟩

theorem specRedeemTakes_sum (l : List (ℕ × ℕ)) :
    ∀ r : ℕ, ((specRedeemTakes r l).map Prod.snd).sum = min r (l.map Prod.snd).sum := by
  induction l with
  | nil => intro r; simp [specRedeemTakes]
  | cons p rest ih =>
    intro r
    cases p with
    | mk id d =>
      simp only [specRedeemTakes, List.map_cons, List.sum_cons, ih]
      omega

theorem specRedeemTakes_zero (l : List (ℕ × ℕ)) :
    ∀ p ∈ specRedeemTakes 0 l, p.2 = 0 := by
  induction l with
  | nil =>
    intro p hp
    cases hp
  | cons q rest ih =>
    intro p hp
    cases q with
    | mk id d =>
      simp only [specRedeemTakes, Nat.zero_min, Nat.zero_sub] at hp
      rcases List.mem_cons.mp hp with h | h
      · rw [h]
      · exact ih p h

theorem specApplyRedeem_zero (rate : ℚ) (takes : List (ℕ × ℕ)) (vs : List Vault)
    (h : ∀ p ∈ takes, p.2 = 0) : specApplyRedeem rate takes vs = vs := by
  unfold specApplyRedeem
  conv_rhs => rw [← List.map_id vs]
  refine List.map_congr_left (fun v _ => ?_)
  cases hf : takes.find? (fun t => t.1 == v.vault_id) with
  | none => rfl
  | some t =>
    have ht := h t (List.mem_of_find?_eq_some hf)
    simp [ht, tokDivDec_zero]

theorem specApplyRedeem_cons (rate : ℚ) (id t : ℕ) (takes : List (ℕ × ℕ)) (vs : List Vault)
    (hid : id ∉ takes.map Prod.fst) :
    specApplyRedeem rate ((id, t) :: takes) vs =
      specApplyRedeem rate takes (updateVault vs id (fun v =>
        { v with borrowed_icusd_amount := v.borrowed_icusd_amount - t,
                 icp_margin_amount := v.icp_margin_amount - tokDivDec t rate })) := by
  unfold specApplyRedeem updateVault
  rw [List.map_map]
  refine List.map_congr_left (fun v _ => ?_)
  by_cases hv : v.vault_id = id
  · have hfind : takes.find? (fun p => p.1 == v.vault_id) = none := by
      refine List.find?_eq_none.mpr (fun p hp => ?_)
      simp only [beq_iff_eq]
      intro he
      exact hid (hv ▸ he ▸ List.mem_map.mpr ⟨p, hp, rfl⟩)
    have h1 : (id == v.vault_id) = true := by simp [hv]
    simp only [Function.comp_def, if_pos hv, List.find?_cons, h1, hfind]
  · have h1 : (id == v.vault_id) = false :=
      beq_eq_false_iff_ne.mpr (fun he => hv he.symm)
    simp only [Function.comp_def, if_neg hv, List.find?_cons, h1]

theorem specApplyRedeem_sums (rate : ℚ) :
    ∀ (takes : List (ℕ × ℕ)) (vs : List Vault), idsNodup vs →
    (takes.map Prod.fst).Nodup →
    (∀ p ∈ takes, ∃ v, lookupVault vs p.1 = some v ∧ p.2 ≤ v.borrowed_icusd_amount ∧
      tokDivDec p.2 rate ≤ v.icp_margin_amount) →
    totalBorrowed (specApplyRedeem rate takes vs) + (takes.map Prod.snd).sum =
      totalBorrowed vs ∧
    totalMargin (specApplyRedeem rate takes vs) +
      (takes.map (fun p => tokDivDec p.2 rate)).sum = totalMargin vs ∧
    (specApplyRedeem rate takes vs).map (fun v => v.vault_id) =
      vs.map (fun v => v.vault_id) := by
  intro takes
  induction takes with
  | nil =>
    intro vs _ _ _
    refine ⟨by simp [specApplyRedeem], by simp [specApplyRedeem], by simp [specApplyRedeem]⟩
  | cons p rest ih =>
    intro vs hno hfst hcond
    cases p with
    | mk id t =>
      obtain ⟨v0, hv0, hdebt, hmarg⟩ := hcond (id, t) (List.mem_cons_self _ _)
      have hfst2 : id ∉ rest.map Prod.fst ∧ (rest.map Prod.fst).Nodup := by
        rw [List.map_cons] at hfst
        exact List.nodup_cons.mp hfst
      have hnotin : id ∉ rest.map Prod.fst := hfst2.1
      have hfid : ∀ w : Vault, ((fun v : Vault =>
          { v with borrowed_icusd_amount := v.borrowed_icusd_amount - t,
                   icp_margin_amount := v.icp_margin_amount - tokDivDec t rate }) w).vault_id
          = w.vault_id := fun w => rfl
      rw [specApplyRedeem_cons rate id t rest vs hnotin]
      have hno2 := idsNodup_updateVault vs id (fun v : Vault =>
        { v with borrowed_icusd_amount := v.borrowed_icusd_amount - t,
                 icp_margin_amount := v.icp_margin_amount - tokDivDec t rate }) hfid hno
      have hcond2 : ∀ p ∈ rest, ∃ v, lookupVault (updateVault vs id (fun v : Vault =>
          { v with borrowed_icusd_amount := v.borrowed_icusd_amount - t,
                   icp_margin_amount := v.icp_margin_amount - tokDivDec t rate })) p.1 =
          some v ∧ p.2 ≤ v.borrowed_icusd_amount ∧ tokDivDec p.2 rate ≤ v.icp_margin_amount := by
        intro p hp
        obtain ⟨v, hv, h1, h2⟩ := hcond p (List.mem_cons_of_mem _ hp)
        have hpne : p.1 ≠ id := by
          intro he
          exact hnotin (he ▸ List.mem_map.mpr ⟨p, hp, rfl⟩)
        refine ⟨v, ?_, h1, h2⟩
        rw [lookupVault_updateVault_ne vs id p.1 _ hfid hpne]
        exact hv
      have hrec := ih (updateVault vs id (fun v : Vault =>
        { v with borrowed_icusd_amount := v.borrowed_icusd_amount - t,
                 icp_margin_amount := v.icp_margin_amount - tokDivDec t rate }))
        hno2 hfst2.2 hcond2
      have hb := sumProj_updateVault (fun v => v.borrowed_icusd_amount) vs id
        (fun v : Vault =>
          { v with borrowed_icusd_amount := v.borrowed_icusd_amount - t,
                   icp_margin_amount := v.icp_margin_amount - tokDivDec t rate }) v0 hno hv0
      have hm := sumProj_updateVault (fun v => v.icp_margin_amount) vs id
        (fun v : Vault =>
          { v with borrowed_icusd_amount := v.borrowed_icusd_amount - t,
                   icp_margin_amount := v.icp_margin_amount - tokDivDec t rate }) v0 hno hv0
      simp only at hb hm
      refine ⟨?_, ?_, ?_⟩
      · have h4 := hrec.1
        unfold totalBorrowed at h4 ⊢
        simp only [List.map_cons, List.sum_cons,
          show ((id : ℕ), t).2 = t from rfl]
        omega
      · have h4 := hrec.2.1
        unfold totalMargin at h4 ⊢
        simp only [List.map_cons, List.sum_cons]
        have hpt : tokDivDec ((id : ℕ), t).2 rate = tokDivDec t rate := rfl
        rw [hpt]
        omega
      · rw [hrec.2.2, updateVault_map_id vs id (fun v : Vault =>
          { v with borrowed_icusd_amount := v.borrowed_icusd_amount - t,
                   icp_margin_amount := v.icp_margin_amount - tokDivDec t rate }) hfid]

theorem redeemLoop_spec (rate : ℚ) :
    ∀ (L : List ℕ) (n : ℕ) (vs : List Vault),
    idsNodup vs →
    L.Nodup →
    (∀ i ∈ L, lookupVault vs i ≠ none) →
    (∀ p ∈ specRedeemTakes n (L.map (fun i => (i, debtAt vs i))),
      tokDivDec p.2 rate ≤ marginAt vs p.1) →
    redeemLoop rate L n vs = some
      (specApplyRedeem rate (specRedeemTakes n (L.map (fun i => (i, debtAt vs i)))) vs,
       n - (L.map (fun i => debtAt vs i)).sum) := by
  intro L
  induction L with
  | nil =>
    intro n vs _ _ _ _
    simp [redeemLoop, specRedeemTakes, specApplyRedeem]
  | cons id rest ih =>
    intro n vs hno hLno hmem hmargin
    have hid0 : id ∉ rest := (List.nodup_cons.mp hLno).1
    have hrestno : rest.Nodup := (List.nodup_cons.mp hLno).2
    cases hv : lookupVault vs id with
    | none => exact absurd hv (hmem id (List.mem_cons_self _ _))
    | some v =>
      have hdebt : debtAt vs id = v.borrowed_icusd_amount := by
        unfold debtAt
        rw [hv]
        rfl
      have hmargv : marginAt vs id = v.icp_margin_amount := by
        unfold marginAt
        rw [hv]
        rfl
      by_cases hn0 : n = 0
      · subst hn0
        have hz := specRedeemTakes_zero ((id :: rest).map (fun i => (i, debtAt vs i)))
        rw [specApplyRedeem_zero rate _ vs hz]
        simp [redeemLoop]
      · by_cases hle : n ≤ v.borrowed_icusd_amount
        · have htakes : specRedeemTakes n ((id :: rest).map (fun i => (i, debtAt vs i))) =
              (id, n) :: specRedeemTakes 0 (rest.map (fun i => (i, debtAt vs i))) := by
            simp only [List.map_cons, specRedeemTakes, hdebt]
            rw [Nat.min_eq_left hle, Nat.sub_self]
          have hm2 : tokDivDec n rate ≤ v.icp_margin_amount := by
            have h5 := hmargin (id, n) (by rw [htakes]; exact List.mem_cons_self _ _)
            simpa [hmargv] using h5
          have hfsts : (specRedeemTakes 0 (rest.map (fun i => (i, debtAt vs i)))).map
              Prod.fst = rest := by
            rw [specRedeemTakes_fst]
            simp [List.map_map, Function.comp_def]
          have hnotin : id ∉ (specRedeemTakes 0 (rest.map (fun i => (i, debtAt vs i)))).map
              Prod.fst := by
            rw [hfsts]
            exact hid0
          rw [htakes, specApplyRedeem_cons rate id n _ vs hnotin,
            specApplyRedeem_zero rate _ _
              (specRedeemTakes_zero (rest.map (fun i => (i, debtAt vs i))))]
          simp only [redeemLoop, hn0, hv, hle, if_true, if_false, ite_true, ite_false,
            deductAmountFromVault, hm2]
          simp only [Option.map_some', Option.some.injEq, Prod.mk.injEq, List.map_cons,
            List.sum_cons, hdebt]
          refine ⟨trivial, ?_⟩
          omega
        · have hdle : v.borrowed_icusd_amount ≤ n := le_of_not_le hle
          have htakes : specRedeemTakes n ((id :: rest).map (fun i => (i, debtAt vs i))) =
              (id, v.borrowed_icusd_amount) ::
                specRedeemTakes (n - v.borrowed_icusd_amount)
                  (rest.map (fun i => (i, debtAt vs i))) := by
            simp only [List.map_cons, specRedeemTakes, hdebt]
            rw [Nat.min_eq_right hdle]
          have hm2 : tokDivDec v.borrowed_icusd_amount rate ≤ v.icp_margin_amount := by
            have h5 := hmargin (id, v.borrowed_icusd_amount)
              (by rw [htakes]; exact List.mem_cons_self _ _)
            simpa [hmargv] using h5
          obtain ⟨fd, hfddef⟩ : ∃ fd : Vault → Vault, fd = fun u : Vault =>
              { u with
                borrowed_icusd_amount := u.borrowed_icusd_amount - v.borrowed_icusd_amount,
                icp_margin_amount := u.icp_margin_amount - tokDivDec v.borrowed_icusd_amount rate } :=
            ⟨_, rfl⟩
          have hfid : ∀ w, (fd w).vault_id = w.vault_id := by
            intro w
            rw [hfddef]
          have hno1 := idsNodup_updateVault vs id fd hfid hno
          have hmem1 : ∀ i ∈ rest, lookupVault (updateVault vs id fd) i ≠ none := by
            intro i hi hc
            exact hmem i (List.mem_cons_of_mem _ hi)
              ((lookupVault_isSome_updateVault vs id i fd hfid).mp hc)
          have hdAt : ∀ i ∈ rest, debtAt (updateVault vs id fd) i = debtAt vs i := by
            intro i hi
            have hne : i ≠ id := fun he => hid0 (he ▸ hi)
            unfold debtAt
            rw [lookupVault_updateVault_ne vs id i fd hfid hne]
          have hmAt : ∀ i ∈ rest, marginAt (updateVault vs id fd) i = marginAt vs i := by
            intro i hi
            have hne : i ≠ id := fun he => hid0 (he ▸ hi)
            unfold marginAt
            rw [lookupVault_updateVault_ne vs id i fd hfid hne]
          have hdmap : rest.map (fun i => (i, debtAt (updateVault vs id fd) i)) =
              rest.map (fun i => (i, debtAt vs i)) :=
            List.map_congr_left (fun i hi => by rw [hdAt i hi])
          have hdsum : rest.map (fun i => debtAt (updateVault vs id fd) i) =
              rest.map (fun i => debtAt vs i) :=
            List.map_congr_left (fun i hi => by rw [hdAt i hi])
          have hfsts : (specRedeemTakes (n - v.borrowed_icusd_amount)
              (rest.map (fun i => (i, debtAt vs i)))).map Prod.fst = rest := by
            rw [specRedeemTakes_fst]
            simp [List.map_map, Function.comp_def]
          have hmargin1 : ∀ p ∈ specRedeemTakes (n - v.borrowed_icusd_amount)
              (rest.map (fun i => (i, debtAt (updateVault vs id fd) i))),
              tokDivDec p.2 rate ≤ marginAt (updateVault vs id fd) p.1 := by
            rw [hdmap]
            intro p hp
            have hp1 : p.1 ∈ rest := by
              have h6 : p.1 ∈ (specRedeemTakes (n - v.borrowed_icusd_amount)
                  (rest.map (fun i => (i, debtAt vs i)))).map Prod.fst :=
                List.mem_map.mpr ⟨p, hp, rfl⟩
              rw [hfsts] at h6
              exact h6
            rw [hmAt p.1 hp1]
            exact hmargin p (by rw [htakes]; exact List.mem_cons_of_mem _ hp)
          have hrec := ih (n - v.borrowed_icusd_amount) (updateVault vs id fd)
            hno1 hrestno hmem1 hmargin1
          rw [hdmap, hdsum] at hrec
          have hnotin2 : id ∉ (specRedeemTakes (n - v.borrowed_icusd_amount)
              (rest.map (fun i => (i, debtAt vs i)))).map Prod.fst := by
            rw [hfsts]
            exact hid0
          simp only [redeemLoop, hn0, hv, hle, if_true, if_false, ite_true, ite_false,
            deductAmountFromVault, hm2, le_refl]
          rw [htakes, specApplyRedeem_cons rate id v.borrowed_icusd_amount _ vs hnotin2]
          rw [← hfddef, hrec]
          simp only [Option.some.injEq, Prod.mk.injEq, List.map_cons, List.sum_cons, hdebt]
          refine ⟨trivial, ?_⟩
          omega

theorem sum_debtAt_perm (vs : List Vault) (L : List ℕ) (hno : idsNodup vs)
    (hperm : L.Perm (vs.map (fun v => v.vault_id))) :
    (L.map (fun i => debtAt vs i)).sum = totalBorrowed vs := by
  have h1 : (L.map (fun i => debtAt vs i)).sum
      = ((vs.map (fun v => v.vault_id)).map (fun i => debtAt vs i)).sum :=
    (hperm.map (fun i => debtAt vs i)).sum_eq
  rw [h1, List.map_map]
  unfold totalBorrowed
  refine congrArg List.sum (List.map_congr_left (fun v hv => ?_))
  show debtAt vs v.vault_id = v.borrowed_icusd_amount
  unfold debtAt
  rw [lookupVault_self vs v hno hv]
  rfl

theorem sum_tokDivDec_bounds (rate : ℚ) (hrate : 0 < rate) (takes : List (ℕ × ℕ)) :
    (((takes.map (fun p => tokDivDec p.2 rate)).sum : ℕ) : ℚ) ≤
      (((takes.map Prod.snd).sum : ℕ) : ℚ) / rate ∧
    (((takes.map Prod.snd).sum : ℕ) : ℚ) / rate ≤
      (((takes.map (fun p => tokDivDec p.2 rate)).sum : ℕ) : ℚ) + (takes.length : ℚ) := by
  induction takes with
  | nil => simp
  | cons p rest ih =>
    simp only [List.map_cons, List.sum_cons, List.length_cons, Nat.cast_add, Nat.cast_one]
    have h1 := tokDivDec_le p.2 rate hrate
    have h2 := lt_tokDivDec_add_one p.2 rate hrate
    have h3 : ((p.2 : ℚ) + (((rest.map Prod.snd).sum : ℕ) : ℚ)) / rate
        = (p.2 : ℚ) / rate + (((rest.map Prod.snd).sum : ℕ) : ℚ) / rate := by ring
    constructor
    · rw [h3]
      exact add_le_add h1 ih.1
    · rw [h3]
      have h4 := ih.2
      linarith

/-- C3: at a positive price, with distinct vault ids, a redemption of net
amount `n` at most the total outstanding debt whose per-vault collateral
deductions are covered (each touched vault's margin holds its truncated
`take/price`), `redeem_on_vaults` consumes vaults in ascending order of
collateralization ratio with ties broken by ascending vault id (the order list
is a permutation of all vault ids, sorted under the lexicographic `(CR, id)`
order), takes `take = min remaining debt` from each touched vault (reducing
its debt by the take and its margin by `take/price` truncated, the spec-side
`specRedeemTakes`/`specApplyRedeem`), exits with zero unconverted amount,
removes exactly `n` total debt, and releases total collateral within one
integer base unit per vault of `n/price`. -/
theorem c3_redemption (s : State) (n : ℕ) (rate : ℚ) (hrate : 0 < rate)
    (hno : idsNodup s.vault_id_to_vaults)
    (hn : n ≤ totalBorrowed s.vault_id_to_vaults)
    (hmargin : ∀ p ∈ specRedeemTakes n ((redeemOrder s.vault_id_to_vaults rate).map
        (fun i => (i, debtAt s.vault_id_to_vaults i))),
      tokDivDec p.2 rate ≤ marginAt s.vault_id_to_vaults p.1) :
    (redeemOrder s.vault_id_to_vaults rate).Perm
      (s.vault_id_to_vaults.map (fun v => v.vault_id)) ∧
    List.Sorted crLe ((redeemOrder s.vault_id_to_vaults rate).map
      (fun i => (crAt s.vault_id_to_vaults rate i, i))) ∧
    s.redeem_on_vaults n rate = some (s.setVaults (specApplyRedeem rate
      (specRedeemTakes n ((redeemOrder s.vault_id_to_vaults rate).map
        (fun i => (i, debtAt s.vault_id_to_vaults i)))) s.vault_id_to_vaults), 0) ∧
    totalBorrowed (specApplyRedeem rate
      (specRedeemTakes n ((redeemOrder s.vault_id_to_vaults rate).map
        (fun i => (i, debtAt s.vault_id_to_vaults i)))) s.vault_id_to_vaults) + n =
      totalBorrowed s.vault_id_to_vaults ∧
    ((totalMargin s.vault_id_to_vaults - totalMargin (specApplyRedeem rate
        (specRedeemTakes n ((redeemOrder s.vault_id_to_vaults rate).map
          (fun i => (i, debtAt s.vault_id_to_vaults i)))) s.vault_id_to_vaults) : ℕ) : ℚ)
      ≤ (n : ℚ) / rate ∧
    (n : ℚ) / rate ≤ ((totalMargin s.vault_id_to_vaults - totalMargin (specApplyRedeem rate
        (specRedeemTakes n ((redeemOrder s.vault_id_to_vaults rate).map
          (fun i => (i, debtAt s.vault_id_to_vaults i)))) s.vault_id_to_vaults) : ℕ) : ℚ) +
      (s.vault_id_to_vaults.length : ℚ) := by
  have hperm : (redeemOrder s.vault_id_to_vaults rate).Perm
      (s.vault_id_to_vaults.map (fun v => v.vault_id)) := by
    unfold redeemOrder
    have h1 := List.perm_insertionSort crLe
      (s.vault_id_to_vaults.map (fun v => (computeCollateralRatio v rate, v.vault_id)))
    have h2 := h1.map Prod.snd
    simpa [List.map_map, Function.comp_def] using h2
  have hLno : (redeemOrder s.vault_id_to_vaults rate).Nodup := hperm.nodup_iff.mpr hno
  have hsorted0 : List.Sorted crLe (List.insertionSort crLe
      (s.vault_id_to_vaults.map (fun v => (computeCollateralRatio v rate, v.vault_id)))) :=
    List.sorted_insertionSort crLe _
  have helem : ∀ p ∈ List.insertionSort crLe
      (s.vault_id_to_vaults.map (fun v => (computeCollateralRatio v rate, v.vault_id))),
      (crAt s.vault_id_to_vaults rate p.2, p.2) = p := by
    intro p hp
    have hp2 : p ∈ s.vault_id_to_vaults.map
        (fun v => (computeCollateralRatio v rate, v.vault_id)) :=
      (List.perm_insertionSort crLe _).mem_iff.mp hp
    obtain ⟨v, hv, rfl⟩ := List.mem_map.mp hp2
    have h3 : crAt s.vault_id_to_vaults rate v.vault_id = computeCollateralRatio v rate := by
      unfold crAt
      rw [lookupVault_self s.vault_id_to_vaults v hno hv]
      rfl
    simp [h3]
  have hmapid : (redeemOrder s.vault_id_to_vaults rate).map
      (fun i => (crAt s.vault_id_to_vaults rate i, i)) =
      List.insertionSort crLe (s.vault_id_to_vaults.map
        (fun v => (computeCollateralRatio v rate, v.vault_id))) := by
    unfold redeemOrder
    rw [List.map_map]
    calc (List.insertionSort crLe (s.vault_id_to_vaults.map
            (fun v => (computeCollateralRatio v rate, v.vault_id)))).map
          ((fun i => (crAt s.vault_id_to_vaults rate i, i)) ∘ Prod.snd)
        = (List.insertionSort crLe (s.vault_id_to_vaults.map
            (fun v => (computeCollateralRatio v rate, v.vault_id)))).map id :=
          List.map_congr_left (fun p hp => helem p hp)
      _ = _ := List.map_id _
  have hmem : ∀ i ∈ redeemOrder s.vault_id_to_vaults rate,
      lookupVault s.vault_id_to_vaults i ≠ none := by
    intro i hi
    have h7 : i ∈ s.vault_id_to_vaults.map (fun v => v.vault_id) := hperm.subset hi
    obtain ⟨v, hv, hvi⟩ := List.mem_map.mp h7
    rw [← hvi, lookupVault_self s.vault_id_to_vaults v hno hv]
    simp
  have hloop := redeemLoop_spec rate (redeemOrder s.vault_id_to_vaults rate) n
    s.vault_id_to_vaults hno hLno hmem hmargin
  have hsumdebt : ((redeemOrder s.vault_id_to_vaults rate).map
      (fun i => debtAt s.vault_id_to_vaults i)).sum = totalBorrowed s.vault_id_to_vaults :=
    sum_debtAt_perm _ _ hno hperm
  have hrun : s.redeem_on_vaults n rate = some (s.setVaults (specApplyRedeem rate
      (specRedeemTakes n ((redeemOrder s.vault_id_to_vaults rate).map
        (fun i => (i, debtAt s.vault_id_to_vaults i)))) s.vault_id_to_vaults), 0) := by
    unfold State.redeem_on_vaults
    rw [hloop]
    simp only [Option.map_some', State.setVaults]
    rw [hsumdebt, Nat.sub_eq_zero_of_le hn]
  have hfsts : (specRedeemTakes n ((redeemOrder s.vault_id_to_vaults rate).map
      (fun i => (i, debtAt s.vault_id_to_vaults i)))).map Prod.fst =
      redeemOrder s.vault_id_to_vaults rate := by
    rw [specRedeemTakes_fst]
    simp [List.map_map, Function.comp_def]
  have hcond : ∀ p ∈ specRedeemTakes n ((redeemOrder s.vault_id_to_vaults rate).map
      (fun i => (i, debtAt s.vault_id_to_vaults i))),
      ∃ v, lookupVault s.vault_id_to_vaults p.1 = some v ∧
        p.2 ≤ v.borrowed_icusd_amount ∧ tokDivDec p.2 rate ≤ v.icp_margin_amount := by
    intro p hp
    have hp1 : p.1 ∈ redeemOrder s.vault_id_to_vaults rate := by
      have h8 : p.1 ∈ (specRedeemTakes n ((redeemOrder s.vault_id_to_vaults rate).map
          (fun i => (i, debtAt s.vault_id_to_vaults i)))).map Prod.fst :=
        List.mem_map.mpr ⟨p, hp, rfl⟩
      rw [hfsts] at h8
      exact h8
    have h9 : p.1 ∈ s.vault_id_to_vaults.map (fun v => v.vault_id) := hperm.subset hp1
    obtain ⟨v, hv, hpv⟩ := List.mem_map.mp h9
    have hlk : lookupVault s.vault_id_to_vaults p.1 = some v := by
      rw [← hpv]
      exact lookupVault_self s.vault_id_to_vaults v hno hv
    have hdv : debtAt s.vault_id_to_vaults p.1 = v.borrowed_icusd_amount := by
      unfold debtAt
      rw [hlk]
      rfl
    have hmv : marginAt s.vault_id_to_vaults p.1 = v.icp_margin_amount := by
      unfold marginAt
      rw [hlk]
      rfl
    refine ⟨v, hlk, ?_, ?_⟩
    · obtain ⟨q, hq, he1, he2⟩ := specRedeemTakes_le _ n p hp
      obtain ⟨j, hj, hqj⟩ := List.mem_map.mp hq
      rw [← hqj] at he1 he2
      have he1j : p.1 = j := he1
      have he2j : p.2 ≤ debtAt s.vault_id_to_vaults j := he2
      rw [← he1j] at he2j
      rw [hdv] at he2j
      exact he2j
    · have h11 := hmargin p hp
      rwa [hmv] at h11
  have hnodupfst : ((specRedeemTakes n ((redeemOrder s.vault_id_to_vaults rate).map
      (fun i => (i, debtAt s.vault_id_to_vaults i)))).map Prod.fst).Nodup := by
    rw [hfsts]
    exact hLno
  have hsums := specApplyRedeem_sums rate
    (specRedeemTakes n ((redeemOrder s.vault_id_to_vaults rate).map
      (fun i => (i, debtAt s.vault_id_to_vaults i)))) s.vault_id_to_vaults hno hnodupfst hcond
  have hsumtakes : ((specRedeemTakes n ((redeemOrder s.vault_id_to_vaults rate).map
      (fun i => (i, debtAt s.vault_id_to_vaults i)))).map Prod.snd).sum = n := by
    rw [specRedeemTakes_sum]
    have h10 : (((redeemOrder s.vault_id_to_vaults rate).map
        (fun i => (i, debtAt s.vault_id_to_vaults i))).map Prod.snd) =
        (redeemOrder s.vault_id_to_vaults rate).map
          (fun i => debtAt s.vault_id_to_vaults i) := by
      simp [List.map_map, Function.comp_def]
    rw [h10, hsumdebt]
    exact Nat.min_eq_left hn
  have hdebtcons : totalBorrowed (specApplyRedeem rate
      (specRedeemTakes n ((redeemOrder s.vault_id_to_vaults rate).map
        (fun i => (i, debtAt s.vault_id_to_vaults i)))) s.vault_id_to_vaults) + n =
      totalBorrowed s.vault_id_to_vaults := by
    have h12 := hsums.1
    rw [hsumtakes] at h12
    exact h12
  have hlen : (specRedeemTakes n ((redeemOrder s.vault_id_to_vaults rate).map
      (fun i => (i, debtAt s.vault_id_to_vaults i)))).length =
      s.vault_id_to_vaults.length := by
    have h13 := congrArg List.length hfsts
    rw [List.length_map] at h13
    rw [h13, hperm.length_eq, List.length_map]
  have hbounds := sum_tokDivDec_bounds rate hrate
    (specRedeemTakes n ((redeemOrder s.vault_id_to_vaults rate).map
      (fun i => (i, debtAt s.vault_id_to_vaults i))))
  rw [hsumtakes, hlen] at hbounds
  have hrel : totalMargin s.vault_id_to_vaults - totalMargin (specApplyRedeem rate
      (specRedeemTakes n ((redeemOrder s.vault_id_to_vaults rate).map
        (fun i => (i, debtAt s.vault_id_to_vaults i)))) s.vault_id_to_vaults) =
      ((specRedeemTakes n ((redeemOrder s.vault_id_to_vaults rate).map
        (fun i => (i, debtAt s.vault_id_to_vaults i)))).map
          (fun p => tokDivDec p.2 rate)).sum := by
    have h14 := hsums.2.1
    omega
  refine ⟨hperm, ?_, hrun, hdebtcons, ?_, ?_⟩
  · rw [hmapid]
    exact hsorted0
  · rw [hrel]
    exact hbounds.1
  · rw [hrel]
    exact hbounds.2

/-- C3 counterexample: one underwater vault (debt 1000, margin 1, price 1) and
a redemption of the whole outstanding debt satisfy the claim premise
`n` at most the total debt, yet `redeem_on_vaults` traps on the margin assert
of `deduct_amount_from_vault` (returns `none`) instead of redeeming. -/
theorem c3_counterexample :
    totalBorrowed stateC3.vault_id_to_vaults = 1000 ∧
    stateC3.redeem_on_vaults 1000 1 = none := by
  constructor
  · rfl
  · have h1 : tokDivDec 1000 1 = 1000 := by
      unfold tokDivDec
      norm_num
      decide
    simp [State.redeem_on_vaults, redeemOrder, stateC3, List.insertionSort,
      List.orderedInsert, redeemLoop, lookupVault, deductAmountFromVault, h1]

theorem c3_redemption_witness :
    stateScenario4.redeem_on_vaults 95000000000 20000 = some (stateScenario4.setVaults
      (specApplyRedeem 20000 (specRedeemTakes 95000000000
        ((redeemOrder stateScenario4.vault_id_to_vaults 20000).map
          (fun i => (i, debtAt stateScenario4.vault_id_to_vaults i))))
        stateScenario4.vault_id_to_vaults), 0) :=
  (c3_redemption stateScenario4 95000000000 20000 (by norm_num)
    (by unfold idsNodup; decide) (by decide)
    (by
      intro p hp
      have htk : specRedeemTakes 95000000000
          ((redeemOrder stateScenario4.vault_id_to_vaults 20000).map
            (fun i => (i, debtAt stateScenario4.vault_id_to_vaults i))) =
          [(0, 95000000000)] := by decide
      rw [htk] at hp
      rw [List.mem_singleton] at hp
      subst hp
      show tokDivDec 95000000000 20000 ≤ marginAt stateScenario4.vault_id_to_vaults 0
      have hq : ((95000000000 : ℕ) : ℚ) / 20000 = ((4750000 : ℕ) : ℚ) := by norm_num
      have h2 : tokDivDec 95000000000 20000 = 4750000 := by
        unfold tokDivDec
        rw [hq, Int.floor_natCast]
        rfl
      have h3 : marginAt stateScenario4.vault_id_to_vaults 0 = 200000000 := by decide
      rw [h2, h3]
      decide)).2.2.1

/-! ## Claim C8 -/

theorem removeGuardKey_not_mem (gs : GuardState) (k : OpKey) :
    k ∉ (removeGuardKey gs k).operation_guards := by
  intro h
  have := (List.mem_filter.mp h).2
  simp at this

theorem removeGuardKey_sublist (gs : GuardState) (k : OpKey) :
    (removeGuardKey gs k).operation_guards.Sublist gs.operation_guards :=
  List.filter_sublist _

theorem foldl_removeGuardKey_sublist (ks : List OpKey) :
    ∀ gs : GuardState,
    ((ks.foldl removeGuardKey gs).operation_guards).Sublist gs.operation_guards := by
  induction ks with
  | nil => intro gs; exact List.Sublist.refl _
  | cons k ks ih =>
    intro gs
    exact (ih (removeGuardKey gs k)).trans (removeGuardKey_sublist gs k)

theorem cleanupGuards_sublist (gs : GuardState) (now : ℕ) :
    ((cleanupGuards gs now).operation_guards).Sublist gs.operation_guards :=
  foldl_removeGuardKey_sublist _ gs

theorem insertGuard_guards (gs : GuardState) (k : OpKey) (now : ℕ) :
    (insertGuard gs k now).operation_guards =
      if k ∈ gs.operation_guards then gs.operation_guards
      else k :: gs.operation_guards := by
  show List.insert k gs.operation_guards = _
  unfold List.insert
  by_cases h : k ∈ gs.operation_guards
  · rw [if_pos h, if_pos (List.elem_iff.mpr h)]
  · rw [if_neg h, if_neg (by simpa using fun hc => h (List.elem_iff.mp hc))]

theorem insertGuard_mem (gs : GuardState) (k : OpKey) (now : ℕ) :
    k ∈ (insertGuard gs k now).operation_guards := by
  rw [insertGuard_guards]
  by_cases h : k ∈ gs.operation_guards
  · rw [if_pos h]; exact h
  · rw [if_neg h]; exact List.mem_cons_self _ _

theorem insertGuard_nodup (gs : GuardState) (k : OpKey) (now : ℕ)
    (h : gs.operation_guards.Nodup) : (insertGuard gs k now).operation_guards.Nodup := by
  rw [insertGuard_guards]
  by_cases hm : k ∈ gs.operation_guards
  · rw [if_pos hm]; exact h
  · rw [if_neg hm]; exact List.nodup_cons.mpr ⟨hm, h⟩

theorem insertGuard_length (gs : GuardState) (k : OpKey) (now : ℕ)
    (h : k ∉ gs.operation_guards) :
    (insertGuard gs k now).operation_guards.length = gs.operation_guards.length + 1 := by
  rw [insertGuard_guards, if_neg h]
  rfl

/-- C8 (amended): acquisition first runs the reclamation pass (which drops
guards that are over 5 minutes old, marked `Failed`, or missing a timestamp).
If the key survives the pass, acquisition fails with `AlreadyProcessing` when
the guard's age in whole seconds is at most 150, and otherwise reclaims it and
proceeds subject to the `MAX_CONCURRENT` cap; when the key is absent after the
pass, acquisition fails with `TooManyConcurrentRequests` exactly when at least
`MAX_CONCURRENT` (100) live guards remain; on success the key is present, at
most once, and at most 100 guards exist. -/
theorem c8_guard_acquisition (gs0 : GuardState) (now principal operation_name : ℕ)
    (hno : gs0.operation_guards.Nodup) :
    ((principal, operation_name) ∈ (cleanupGuards gs0 now).operation_guards →
      (now - ((cleanupGuards gs0 now).operation_guard_timestamps.lookup
          (principal, operation_name)).getD 0) / 1000000000 ≤ 150 →
      guardPrincipalNew gs0 now principal operation_name =
        Except.error GuardError.AlreadyProcessing) ∧
    ((principal, operation_name) ∈ (cleanupGuards gs0 now).operation_guards →
      150 < (now - ((cleanupGuards gs0 now).operation_guard_timestamps.lookup
          (principal, operation_name)).getD 0) / 1000000000 →
      guardPrincipalNew gs0 now principal operation_name =
        (if MAX_CONCURRENT ≤ (removeGuardKey (cleanupGuards gs0 now)
            (principal, operation_name)).operation_guards.length then
          Except.error GuardError.TooManyConcurrentRequests
        else Except.ok (insertGuard (removeGuardKey (cleanupGuards gs0 now)
          (principal, operation_name)) (principal, operation_name) now))) ∧
    ((principal, operation_name) ∉ (cleanupGuards gs0 now).operation_guards →
      (guardPrincipalNew gs0 now principal operation_name =
          Except.error GuardError.TooManyConcurrentRequests ↔
        MAX_CONCURRENT ≤ (cleanupGuards gs0 now).operation_guards.length)) ∧
    (∀ gs', guardPrincipalNew gs0 now principal operation_name = Except.ok gs' →
      gs'.operation_guards.Nodup ∧
      (principal, operation_name) ∈ gs'.operation_guards ∧
      gs'.operation_guards.length ≤ MAX_CONCURRENT) := by
  have h150 : GUARD_TIMEOUT_NANOS / 1000000000 / 2 = 150 := rfl
  have hcn : (cleanupGuards gs0 now).operation_guards.Nodup :=
    (cleanupGuards_sublist gs0 now).nodup hno
  refine ⟨?_, ?_, ?_, ?_⟩
  · intro hmem hage
    unfold guardPrincipalNew
    rw [if_pos hmem, if_neg (by rw [h150]; exact Nat.not_lt.mpr hage)]
  · intro hmem hage
    unfold guardPrincipalNew
    rw [if_pos hmem, if_pos (by rw [h150]; exact hage)]
  · intro hmem
    unfold guardPrincipalNew
    rw [if_neg hmem]
    constructor
    · intro h
      by_cases hlen : MAX_CONCURRENT ≤ (cleanupGuards gs0 now).operation_guards.length
      · exact hlen
      · rw [if_neg hlen] at h
        cases h
    · intro hlen
      rw [if_pos hlen]
  · intro gs' h
    unfold guardPrincipalNew at h
    by_cases hmem : (principal, operation_name) ∈ (cleanupGuards gs0 now).operation_guards
    · rw [if_pos hmem] at h
      by_cases hage : GUARD_TIMEOUT_NANOS / 1000000000 / 2 <
          (now - ((cleanupGuards gs0 now).operation_guard_timestamps.lookup
            (principal, operation_name)).getD 0) / 1000000000
      · rw [if_pos hage] at h
        by_cases hlen : MAX_CONCURRENT ≤ (removeGuardKey (cleanupGuards gs0 now)
            (principal, operation_name)).operation_guards.length
        · rw [if_pos hlen] at h
          cases h
        · rw [if_neg hlen] at h
          rcases Except.ok.inj h with rfl
          have hn1 : (removeGuardKey (cleanupGuards gs0 now)
              (principal, operation_name)).operation_guards.Nodup :=
            (removeGuardKey_sublist _ _).nodup hcn
          refine ⟨insertGuard_nodup _ _ _ hn1, insertGuard_mem _ _ _, ?_⟩
          rw [insertGuard_length _ _ _ (removeGuardKey_not_mem _ _)]
          omega
      · rw [if_neg hage] at h
        cases h
    · rw [if_neg hmem] at h
      by_cases hlen : MAX_CONCURRENT ≤ (cleanupGuards gs0 now).operation_guards.length
      · rw [if_pos hlen] at h
        cases h
      · rw [if_neg hlen] at h
        rcases Except.ok.inj h with rfl
        refine ⟨insertGuard_nodup _ _ _ hcn, insertGuard_mem _ _ _, ?_⟩
        rw [insertGuard_length _ _ _ hmem]
        omega

/-- Witness for C8: an in-progress guard 60 s old blocks with
`AlreadyProcessing`, and acquisition on empty tables succeeds with one
guard. -/
theorem c8_guard_acquisition_witness :
    guardPrincipalNew guardStateInProgress 60000000000 1 2 =
      Except.error GuardError.AlreadyProcessing ∧
    ((insertGuard guardStateEmpty (1, 2) 5).operation_guards.Nodup ∧
      (1, 2) ∈ (insertGuard guardStateEmpty (1, 2) 5).operation_guards ∧
      (insertGuard guardStateEmpty (1, 2) 5).operation_guards.length ≤ MAX_CONCURRENT) := by
  constructor
  · exact (c8_guard_acquisition guardStateInProgress 60000000000 1 2 (by decide)).1
      (by decide) (by decide)
  · exact (c8_guard_acquisition guardStateEmpty 5 1 2 (by decide)).2.2.2
      (insertGuard guardStateEmpty (1, 2) 5) rfl

/-- C8 counterexample: a 1-minute-old guard marked `Failed` does not produce
`AlreadyProcessing` (acquisition succeeds), and a guard older than 2.5 minutes
(150.5 s) is not reclaimed — it still fails with `AlreadyProcessing` because
the age check truncates to whole seconds. -/
theorem c8_counterexample :
    (guardPrincipalNew guardStateFailed 60000000000 1 2 =
      Except.ok (insertGuard (cleanupGuards guardStateFailed 60000000000) (1, 2)
        60000000000)) ∧
    60000000000 - 0 ≤ 150 * 1000000000 ∧
    guardPrincipalNew guardStateInProgress 150500000000 1 2 =
      Except.error GuardError.AlreadyProcessing ∧
    150 * 1000000000 < 150500000000 - 0 := by
  exact ⟨rfl, by decide, rfl, by decide⟩

/-! ## Claim C6 -/

theorem redeem_on_vaults_fields (s : State) (n : ℕ) (r : ℚ) (p : State × ℕ)
    (h : s.redeem_on_vaults n r = some p) :
    p.1.current_base_rate = s.current_base_rate ∧
    p.1.last_redemption_time = s.last_redemption_time := by
  unfold State.redeem_on_vaults at h
  rcases Option.map_eq_some'.mp h with ⟨q, _, rfl⟩
  exact ⟨rfl, rfl⟩

/-- C6: on every successful redemption the stored base rate becomes
`compute_redemption_fee`, which for positive total debt equals
`clamp(base_rate × 0.94^elapsed_hours + (amount / total_debt) × 0.5, 0.005,
0.05)` with `elapsed_hours = ⌊(now − last_redemption) / 1h⌋`, hence lies in
`[0.005, 0.05]`; with zero total debt the computed rate is 0. -/
theorem c6_redemption_base_rate (s : State) (amount now : ℕ) (tr : Except Unit ℕ)
    (res : SuccessWithFee)
    (_hnow : s.last_redemption_time ≤ now)
    (hrun : (redeem_icp s amount now (Except.ok ()) tr).outcome = Outcome.ok res) :
    (redeem_icp s amount now (Except.ok ()) tr).state.current_base_rate =
      computeRedemptionFee ((now - s.last_redemption_time) / 1000000000 / 3600) amount
        s.total_borrowed_icusd_amount s.current_base_rate ∧
    (0 < s.total_borrowed_icusd_amount →
      computeRedemptionFee ((now - s.last_redemption_time) / 1000000000 / 3600) amount
          s.total_borrowed_icusd_amount s.current_base_rate =
        min (max (s.current_base_rate *
              (94 / 100 : ℚ) ^ ((now - s.last_redemption_time) / (3600 * 1000000000)) +
            ((amount : ℚ) / (s.total_borrowed_icusd_amount : ℚ)) * (1 / 2)) (1 / 200))
          (1 / 20) ∧
      1 / 200 ≤ (redeem_icp s amount now (Except.ok ()) tr).state.current_base_rate ∧
      (redeem_icp s amount now (Except.ok ()) tr).state.current_base_rate ≤ 1 / 20) ∧
    (s.total_borrowed_icusd_amount = 0 →
      (redeem_icp s amount now (Except.ok ()) tr).state.current_base_rate = 0) := by
  have hfee : (redeem_icp s amount now (Except.ok ()) tr).state.current_base_rate =
      computeRedemptionFee ((now - s.last_redemption_time) / 1000000000 / 3600) amount
        s.total_borrowed_icusd_amount s.current_base_rate := by
    by_cases hmin : amount < MIN_ICUSD_AMOUNT
    · simp [redeem_icp, hmin] at hrun
    cases hr : s.last_icp_rate with
    | none => simp [redeem_icp, hmin, hr] at hrun
    | some rate =>
      cases tr with
      | error e => simp [redeem_icp, hmin, hr] at hrun
      | ok bi =>
        simp only [redeem_icp] at hrun ⊢
        rw [if_neg hmin] at hrun ⊢
        simp only [hr] at hrun ⊢
        split at hrun
        next heq => simp at hrun
        next s2 heq =>
          simp only [heq]
          unfold recordRedemptionOnVaults at heq
          rcases Option.map_eq_some'.mp heq with ⟨p, hp, hps⟩
          have hf := redeem_on_vaults_fields _ _ _ _ hp
          rw [← hps, hf.1]
          rfl
  refine ⟨hfee, ?_, ?_⟩
  · intro hpos
    have hT : s.total_borrowed_icusd_amount ≠ 0 := Nat.pos_iff_ne_zero.mp hpos
    have hform : computeRedemptionFee ((now - s.last_redemption_time) / 1000000000 / 3600)
        amount s.total_borrowed_icusd_amount s.current_base_rate =
        min (max (s.current_base_rate *
              (94 / 100 : ℚ) ^ ((now - s.last_redemption_time) / (3600 * 1000000000)) +
            ((amount : ℚ) / (s.total_borrowed_icusd_amount : ℚ)) * (1 / 2)) (1 / 200))
          (1 / 20) := by
      unfold computeRedemptionFee
      rw [if_neg hT, ratioPow_eq_pow]
      rw [Nat.div_div_eq_div_mul, Nat.mul_comm 1000000000 3600]
      rfl
    refine ⟨hform, ?_, ?_⟩
    · rw [hfee, hform]
      exact le_min (le_max_right _ _) (by norm_num)
    · rw [hfee, hform]
      exact min_le_right _ _
  · intro hzero
    rw [hfee]
    unfold computeRedemptionFee
    rw [if_pos hzero]

/-- Witness for C6: a concrete redemption (here with zero outstanding debt,
exercising the zero branch of the fee formula). -/
theorem c6_redemption_base_rate_witness :
    stateC7.last_redemption_time ≤ 42 ∧
    (redeem_icp stateC7 1000000000 42 (Except.ok ()) (Except.ok 3)).state.current_base_rate =
      computeRedemptionFee ((42 - stateC7.last_redemption_time) / 1000000000 / 3600)
        1000000000 stateC7.total_borrowed_icusd_amount stateC7.current_base_rate := by
  have hrun : (redeem_icp stateC7 1000000000 42 (Except.ok ()) (Except.ok 3)).outcome =
      Outcome.ok ⟨3, 0⟩ := by
    have h : redeem_icp stateC7 1000000000 42 (Except.ok ()) (Except.ok 3) =
        ⟨Outcome.ok ⟨3, 0⟩,
          { stateC7 with current_base_rate := 0, last_redemption_time := 42 }, []⟩ := by
      simp [redeem_icp, redeemStateUpdate, stateC7, MIN_ICUSD_AMOUNT, tokMulDec,
        recordRedemptionOnVaults, State.redeem_on_vaults, redeemOrder, redeemLoop,
        State.get_redemption_fee, computeRedemptionFee, State.total_borrowed_icusd_amount,
        totalBorrowed]
    rw [h]
  exact ⟨by norm_num [stateC7],
    (c6_redemption_base_rate stateC7 1000000000 42 (Except.ok 3) ⟨3, 0⟩
      (by norm_num [stateC7]) hrun).1⟩

/-! ## Claim C9 -/

/-- C9: a successful `borrow_from_vault` implies the pre-check
`debt + amount ≤ (collateral × price) / mode.min_liquidation_ratio` held; the
fee rate is 0 in Recovery and the configured fee otherwise, the caller is
minted `amount − fee`, and the vault's debt increases by the full amount. -/
theorem c9_borrow_from_vault (s : State) (caller : ℕ) (arg : VaultArg)
    (mint : Except Unit ℕ) (res : SuccessWithFee)
    (hrun : (borrow_from_vault s caller arg (Except.ok ()) mint).outcome = Outcome.ok res) :
    ∃ vault rate, lookupVault s.vault_id_to_vaults arg.vault_id = some vault ∧
      s.last_icp_rate = some rate ∧
      vault.borrowed_icusd_amount + arg.amount ≤
        tokDivDec (tokMulDec vault.icp_margin_amount rate) s.mode.minLiquidationRatio ∧
      s.get_borrowing_fee = (if s.mode = Mode.Recovery then 0 else s.fee) ∧
      res.fee_amount_paid = tokMulDec arg.amount s.get_borrowing_fee ∧
      (borrow_from_vault s caller arg (Except.ok ()) mint).minted =
        [(arg.amount - res.fee_amount_paid, caller)] ∧
      lookupVault
          (borrow_from_vault s caller arg (Except.ok ()) mint).state.vault_id_to_vaults
          arg.vault_id =
        some { vault with
          borrowed_icusd_amount := vault.borrowed_icusd_amount + arg.amount } := by
  by_cases hmin : arg.amount < MIN_ICUSD_AMOUNT
  · simp [borrow_from_vault, hmin] at hrun
  cases hv : lookupVault s.vault_id_to_vaults arg.vault_id with
  | none => simp [borrow_from_vault, hmin, hv] at hrun
  | some vault =>
  cases hr : s.last_icp_rate with
  | none => simp [borrow_from_vault, hmin, hv, hr] at hrun
  | some rate =>
  by_cases hown : caller ≠ vault.owner
  · simp [borrow_from_vault, hmin, hv, hr, hown] at hrun
  by_cases hmax : tokDivDec (tokMulDec vault.icp_margin_amount rate)
      s.mode.minLiquidationRatio < vault.borrowed_icusd_amount + arg.amount
  · simp [borrow_from_vault, hmin, hv, hr, hown, hmax] at hrun
  cases mint with
  | error e => simp [borrow_from_vault, hmin, hv, hr, hown, hmax] at hrun
  | ok bi =>
  have hrec : recordBorrowFromVault s arg.vault_id arg.amount =
      some (s.setVaults (updateVault s.vault_id_to_vaults arg.vault_id (fun v =>
        { v with borrowed_icusd_amount := v.borrowed_icusd_amount + arg.amount }))) := by
    unfold recordBorrowFromVault State.state_borrow_from_vault
    rw [hv]
    rfl
  have hresult : borrow_from_vault s caller arg (Except.ok ()) (Except.ok bi) =
      ⟨Outcome.ok ⟨bi, tokMulDec arg.amount s.get_borrowing_fee⟩,
        s.setVaults (updateVault s.vault_id_to_vaults arg.vault_id (fun v =>
          { v with borrowed_icusd_amount := v.borrowed_icusd_amount + arg.amount })),
        [(arg.amount - tokMulDec arg.amount s.get_borrowing_fee, caller)]⟩ := by
    simp only [borrow_from_vault]
    rw [if_neg hmin, hv]
    simp only []
    rw [hr]
    simp only []
    rw [if_neg hown, if_neg hmax, hrec]
  rw [hresult] at hrun
  have hres : res = ⟨bi, tokMulDec arg.amount s.get_borrowing_fee⟩ :=
    (Outcome.ok.inj hrun).symm
  refine ⟨vault, rate, rfl, rfl, Nat.not_lt.mp hmax, ?_, ?_, ?_, ?_⟩
  · cases hm : s.mode <;> simp [State.get_borrowing_fee, hm]
  · rw [hres]
  · rw [hresult, hres]
  · rw [hresult]
    show lookupVault (updateVault s.vault_id_to_vaults arg.vault_id (fun v =>
      { v with borrowed_icusd_amount := v.borrowed_icusd_amount + arg.amount }))
        arg.vault_id = _
    rw [lookupVault_updateVault_self s.vault_id_to_vaults arg.vault_id
      (fun v => { v with borrowed_icusd_amount := v.borrowed_icusd_amount + arg.amount })
      (fun v => rfl), hv]
    rfl

/-- Witness for C9: a concrete successful borrow of 10 ICUSD against the
1-ICP vault of `stateOwned` at price 20000 in `GeneralAvailability`. -/
theorem c9_borrow_from_vault_witness :
    (borrow_from_vault stateOwned 7 ⟨0, 1000000000⟩ (Except.ok ())
        (Except.ok 5)).minted =
      [(1000000000 - tokMulDec 1000000000 stateOwned.get_borrowing_fee, 7)] ∧
    lookupVault (borrow_from_vault stateOwned 7 ⟨0, 1000000000⟩ (Except.ok ())
        (Except.ok 5)).state.vault_id_to_vaults 0 =
      some ⟨7, 1000000000, 100000000, 0⟩ := by
  have h1 : lookupVault stateOwned.vault_id_to_vaults 0 =
      some ⟨7, 0, 100000000, 0⟩ := rfl
  have h3 : ¬ tokDivDec (tokMulDec 100000000 20000) minCollateralRatio < 1000000000 := by
    norm_num [tokDivDec, tokMulDec, minCollateralRatio]
    repeat (first | simp | norm_num)
  have hrun : (borrow_from_vault stateOwned 7 ⟨0, 1000000000⟩ (Except.ok ())
      (Except.ok 5)).outcome =
      Outcome.ok ⟨5, tokMulDec 1000000000 stateOwned.get_borrowing_fee⟩ := by
    simp [borrow_from_vault, h1, h3, stateOwned, MIN_ICUSD_AMOUNT, Mode.minLiquidationRatio,
      recordBorrowFromVault, State.state_borrow_from_vault, lookupVault, updateVault,
      State.get_borrowing_fee]
  obtain ⟨vault, rate, hv, hr, hpre, hfeeform, hfa, hmint, hdebt⟩ :=
    c9_borrow_from_vault stateOwned 7 ⟨0, 1000000000⟩ (Except.ok 5)
      ⟨5, tokMulDec 1000000000 stateOwned.get_borrowing_fee⟩ hrun
  have hvv : vault = ⟨7, 0, 100000000, 0⟩ := (Option.some.inj (h1.symm.trans hv)).symm
  constructor
  · rw [hmint]
  · rw [hdebt, hvv]
    rfl

/-! ## Claim C4 -/

theorem liquidate_vault_fields (s : State) (id : ℕ) (mode : Mode) (rate : ℚ) (s' : State)
    (h : s.liquidate_vault id mode rate = some s') :
    s'.mode = s.mode ∧ s'.total_collateral_ratio = s.total_collateral_ratio := by
  cases hv : lookupVault s.vault_id_to_vaults id with
  | none =>
    unfold State.liquidate_vault at h
    rw [hv] at h
    simp at h
  | some vault =>
    rw [liquidate_vault_of_lookup s id mode rate vault hv] at h
    by_cases hc : mode = Mode.Recovery ∧ minCollateralRatio < computeCollateralRatio vault rate
    · rw [if_pos hc] at h
      by_cases ha : tokDivDec (tokMulDec vault.borrowed_icusd_amount minCollateralRatio) rate ≤
          vault.icp_margin_amount
      · rw [if_pos ha] at h
        rcases Option.some.inj h with rfl
        exact ⟨rfl, rfl⟩
      · rw [if_neg ha] at h
        cases h
    · rw [if_neg hc] at h
      rcases Option.some.inj h with rfl
      exact ⟨rfl, rfl⟩

theorem foldlM_liquidate_fields (rate : ℚ) (l : List Vault) :
    ∀ (s s' : State),
    l.foldlM (fun acc v => acc.liquidate_vault v.vault_id acc.mode rate) s = some s' →
    s'.mode = s.mode ∧ s'.total_collateral_ratio = s.total_collateral_ratio := by
  induction l with
  | nil =>
    intro s s' h
    rcases Option.some.inj h with rfl
    exact ⟨rfl, rfl⟩
  | cons v tl ih =>
    intro s s' h
    rw [List.foldlM_cons] at h
    cases hx : s.liquidate_vault v.vault_id s.mode rate with
    | none =>
      rw [hx] at h
      simp at h
    | some s1 =>
      rw [hx] at h
      simp only [Option.bind_eq_bind, Option.some_bind] at h
      have h1 := liquidate_vault_fields s v.vault_id s.mode rate s1 hx
      have h2 := ih s1 s' h
      exact ⟨h2.1.trans h1.1, h2.2.trans h1.2⟩

theorem checkVaults_fields (s s' : State) (h : checkVaults s = some s') :
    s'.mode = s.mode ∧ s'.total_collateral_ratio = s.total_collateral_ratio := by
  unfold checkVaults at h
  exact foldlM_liquidate_fields _ _ s s' h

theorem update_mode_eq (s : State) (r : ℚ) :
    (s.update_total_collateral_ratio_and_mode r).mode =
      (if (s.update_total_collateral_ratio_and_mode r).total_collateral_ratio < 1 then
        Mode.ReadOnly
      else if (s.update_total_collateral_ratio_and_mode r).total_collateral_ratio <
          recoveryCollateralRatio then Mode.Recovery
      else Mode.GeneralAvailability) := by
  unfold State.update_total_collateral_ratio_and_mode
  by_cases h1 : s.compute_total_collateral_ratio r < 1 <;>
    by_cases h2 : s.compute_total_collateral_ratio r < recoveryCollateralRatio <;>
      simp [h1, h2]

theorem fetchFinish_mode (s : State) (r : ℚ) (hr : s.last_icp_rate = some r) (s' : State)
    (h : fetchFinish s = some s') :
    s'.mode = (if s'.total_collateral_ratio < 1 then Mode.ReadOnly
      else if s'.total_collateral_ratio < recoveryCollateralRatio then Mode.Recovery
      else Mode.GeneralAvailability) := by
  unfold fetchFinish at h
  rw [hr] at h
  simp only [ne_eq, ite_not] at h
  by_cases hm : (s.update_total_collateral_ratio_and_mode r).mode = Mode.ReadOnly
  · rw [if_pos hm] at h
    rcases Option.some.inj h with rfl
    exact update_mode_eq s r
  · rw [if_neg hm] at h
    have hf := checkVaults_fields _ _ h
    rw [hf.1, hf.2]
    exact update_mode_eq s r

theorem fetchApplyResult_rate_isSome (s0 : State) (er : ExchangeRateResult)
    (hinv : s0.last_icp_timestamp = none ∨ s0.last_icp_rate.isSome = true) :
    (fetchApplyResult s0 (some er)).last_icp_rate.isSome = true := by
  unfold fetchApplyResult
  simp only []
  set s1 := if (er.rate : ℚ) / ((10 : ℚ) ^ er.decimals) < 1 / 100 then
    { s0 with mode := Mode.ReadOnly } else s0 with hs1
  have h1r : s1.last_icp_rate = s0.last_icp_rate := by rw [hs1]; split <;> rfl
  have h1t : s1.last_icp_timestamp = s0.last_icp_timestamp := by rw [hs1]; split <;> rfl
  cases hts : s1.last_icp_timestamp with
  | some t =>
    simp only [hts]
    split
    · rfl
    · rw [h1r]
      rcases hinv with hnone | hsome
      · rw [h1t, hnone] at hts
        cases hts
      · exact hsome
  | none =>
    simp only [hts]
    rfl

/-- C4 (amended): after every oracle refresh that received a rate, the final
mode is the deterministic function of the final total collateral ratio alone:
`ReadOnly` iff TCR < 1.0, `Recovery` iff 1.0 ≤ TCR < CCR, `GeneralAvailability`
iff TCR ≥ CCR.  The dust-floor `ReadOnly` forced for a fetched price below
0.01 is overwritten by the closing `update_total_collateral_ratio_and_mode`
and only persists through its effect on the TCR. -/
theorem c4_mode_after_refresh (s0 : State) (er : ExchangeRateResult) (s' : State)
    (hguard : s0.is_fetching_rate = false)
    (hinv : s0.last_icp_timestamp = none ∨ s0.last_icp_rate.isSome = true)
    (hrun : fetchIcpRate s0 (some er) = some s') :
    s'.mode = (if s'.total_collateral_ratio < 1 then Mode.ReadOnly
      else if s'.total_collateral_ratio < recoveryCollateralRatio then Mode.Recovery
      else Mode.GeneralAvailability) := by
  unfold fetchIcpRate at hrun
  rw [if_neg (by simp [hguard])] at hrun
  have hsome := fetchApplyResult_rate_isSome s0 er hinv
  rcases Option.isSome_iff_exists.mp hsome with ⟨r, hr⟩
  exact fetchFinish_mode _ r hr s' hrun

/-- Witness for C4: a concrete refresh of the empty-vault state. -/
theorem c4_mode_after_refresh_witness :
    ∃ s', fetchIcpRate stateEmpty (some ⟨5, 3, 1⟩) = some s' ∧
      s'.mode = (if s'.total_collateral_ratio < 1 then Mode.ReadOnly
        else if s'.total_collateral_ratio < recoveryCollateralRatio then Mode.Recovery
        else Mode.GeneralAvailability) := by
  refine ⟨stateC4After, ?h, ?_⟩
  case h =>
    norm_num [fetchIcpRate, fetchApplyResult, fetchFinish, stateEmpty, stateC4After,
      State.update_total_collateral_ratio_and_mode, State.compute_total_collateral_ratio,
      State.total_borrowed_icusd_amount, State.total_icp_margin_amount, totalBorrowed,
      totalMargin, checkVaults, Mode.minLiquidationRatio, decimalMax,
      recoveryCollateralRatio]
  case _ =>
    exact c4_mode_after_refresh stateEmpty ⟨5, 3, 1⟩ _ rfl (Or.inl rfl) (by
      norm_num [fetchIcpRate, fetchApplyResult, fetchFinish, stateEmpty, stateC4After,
        State.update_total_collateral_ratio_and_mode, State.compute_total_collateral_ratio,
        State.total_borrowed_icusd_amount, State.total_icp_margin_amount, totalBorrowed,
        totalMargin, checkVaults, Mode.minLiquidationRatio, decimalMax,
        recoveryCollateralRatio])

/-- C4 counterexample: a fetched price of 0.005 (below the 0.01 dust floor)
does not leave the protocol in `ReadOnly` at the end of the refresh: with no
outstanding debt the closing `update_total_collateral_ratio_and_mode`
overwrites the forced `ReadOnly` with `GeneralAvailability`. -/
theorem c4_counterexample :
    ((5 : ℚ) / 10 ^ 3 < 1 / 100) ∧
    fetchIcpRate stateEmpty (some ⟨5, 3, 1⟩) = some stateC4After ∧
    stateC4After.mode = Mode.GeneralAvailability := by
  refine ⟨by norm_num, ?_, rfl⟩
  norm_num [fetchIcpRate, fetchApplyResult, fetchFinish, stateEmpty, stateC4After,
    State.update_total_collateral_ratio_and_mode, State.compute_total_collateral_ratio,
    State.total_borrowed_icusd_amount, State.total_icp_margin_amount, totalBorrowed,
    totalMargin, checkVaults, Mode.minLiquidationRatio, decimalMax, recoveryCollateralRatio]

end Rumi
